import Mathlib

/-!
Verification of the cache engine and interception middleware of
`express_sqlite_cache` (src/express_sqlite_cache.js).

The JavaScript source is shallowly embedded:

* JavaScript values that flow through the cache are modelled by `Json`
  (numbers are restricted to integers; IEEE floats are out of scope).
* The platform builtins `JSON.stringify` / `JSON.parse` are modelled by
  `Json.stringify` / `Json.parse` on that fragment (`stringify` emits no
  whitespace, exactly like the builtin with no spacing argument).
* `crypto.createHash('md5')...digest('hex')` is modelled by a full
  implementation of the MD5 algorithm (`md5Hex`).
* The SQLite table `cache` is modelled by an association list of rows;
  each prepared statement of `prepareStatements` becomes a function on
  that list.  `unixepoch()` and `Date.now()/1000` are modelled by an
  explicit `now : Int` parameter.
* The `SQLiteCache` class becomes a state structure `CacheEngine` whose
  `db` field is `none` before `init` and after `close`; every method is
  a function returning `Except CacheErr result` paired with the
  post-state.
* `createCacheMiddleware` becomes `runMiddleware`, an explicit model of
  the middleware's control flow for a single request whose handler
  terminates through `res.json`.
-/

set_option maxHeartbeats 1000000

/-- JavaScript value fragment stored in the cache: JSON values whose
numbers are integers. Object fields keep their insertion order, exactly
as JavaScript objects enumerate their properties. -/
inductive Json where
  | null : Json
  | bool (b : Bool) : Json
  | num (n : Int) : Json
  | str (s : String) : Json
  | arr (elems : List Json) : Json
  | obj (fields : List (String × Json)) : Json

/-- Decimal digit character (for numbers ≤ 9; callers pass `n % 10`). -/
def digitChar : Nat → Char
  | 0 => '0' | 1 => '1' | 2 => '2' | 3 => '3' | 4 => '4'
  | 5 => '5' | 6 => '6' | 7 => '7' | 8 => '8' | _ => '9'

/-- Decimal digit characters of a natural number, most significant
first; structural recursion on a fuel bound so the kernel can evaluate
it. Any `fuel > n` is enough, since `n / 10 < n` for `n ≥ 10`. -/
def natCharsAux : Nat → Nat → List Char
  | 0, _ => []
  | fuel + 1, n =>
    if n < 10 then [digitChar n]
    else natCharsAux fuel (n / 10) ++ [digitChar (n % 10)]

/-- Decimal digit characters of a natural number, most significant first. -/
def natChars (n : Nat) : List Char := natCharsAux (n + 1) n

/-- Decimal representation of an integer, as `String(n)` renders an
integral JavaScript number. -/
def intChars : Int → List Char
  | Int.ofNat n => natChars n
  | Int.negSucc m => '-' :: natChars (m + 1)

/-- Lowercase hexadecimal digit character (for values ≤ 15). -/
def hexDigitChar : Nat → Char
  | 0 => '0' | 1 => '1' | 2 => '2' | 3 => '3' | 4 => '4' | 5 => '5'
  | 6 => '6' | 7 => '7' | 8 => '8' | 9 => '9' | 10 => 'a' | 11 => 'b'
  | 12 => 'c' | 13 => 'd' | 14 => 'e' | _ => 'f'

/-- How `JSON.stringify` escapes one character inside a string literal. -/
def escapeChar (c : Char) : List Char :=
  if c = '"' then ['\\', '"']
  else if c = '\\' then ['\\', '\\']
  else if c = '\x08' then ['\\', 'b']
  else if c = '\x09' then ['\\', 't']
  else if c = '\x0a' then ['\\', 'n']
  else if c = '\x0c' then ['\\', 'f']
  else if c = '\x0d' then ['\\', 'r']
  else if c.toNat < 32 then
    '\\' :: 'u' :: '0' :: '0' :: hexDigitChar (c.toNat / 16) :: [hexDigitChar (c.toNat % 16)]
  else [c]

/-- Body of a `JSON.stringify` string literal (without the quotes). -/
def escChars (cs : List Char) : List Char := cs.flatMap escapeChar

mutual

/-- Character-level model of `JSON.stringify` on the `Json` fragment. -/
def strJsonC : Json → List Char
  | Json.null => ['n', 'u', 'l', 'l']
  | Json.bool true => ['t', 'r', 'u', 'e']
  | Json.bool false => ['f', 'a', 'l', 's', 'e']
  | Json.num i => intChars i
  | Json.str s => '"' :: escChars s.data ++ ['"']
  | Json.arr xs => '[' :: strElemsC xs ++ [']']
  | Json.obj fs => '\x7b' :: strMembersC fs ++ ['\x7d']

/-- Comma-separated array elements. -/
def strElemsC : List Json → List Char
  | [] => []
  | [x] => strJsonC x
  | x :: y :: xs => strJsonC x ++ ',' :: strElemsC (y :: xs)

/-- Comma-separated object members, each `"key":value`. -/
def strMembersC : List (String × Json) → List Char
  | [] => []
  | [(k, v)] => '"' :: escChars k.data ++ '"' :: ':' :: strJsonC v
  | (k, v) :: m :: fs =>
      '"' :: escChars k.data ++ '"' :: ':' :: strJsonC v ++ ',' :: strMembersC (m :: fs)

end

/-- Model of the `JSON.stringify` builtin restricted to the `Json`
fragment (integral numbers, no `undefined`, no spacing argument). -/
def Json.stringify (v : Json) : String := String.mk (strJsonC v)

/-- JSON whitespace test (space, tab, line feed, carriage return). -/
def isWsChar (c : Char) : Bool := c = ' ' || c = '\x09' || c = '\x0a' || c = '\x0d'

/-- Drop leading JSON whitespace. -/
def skipWs : List Char → List Char
  | c :: cs => if isWsChar c then skipWs cs else c :: cs
  | [] => []

/-- Numeric value of a decimal digit character. -/
def digitVal (c : Char) : Nat := c.toNat - 48

/-- Hexadecimal digit test. -/
def isHexDigit (c : Char) : Bool :=
  c.isDigit || ('a' ≤ c && c ≤ 'f') || ('A' ≤ c && c ≤ 'F')

/-- Numeric value of a hexadecimal digit character. -/
def hexVal (c : Char) : Nat :=
  if c.isDigit then c.toNat - 48
  else if 'a' ≤ c && c ≤ 'f' then c.toNat - 87
  else c.toNat - 55

/-- Consume a run of decimal digits, folding them onto `acc`. -/
def parseNatAux : List Char → Nat → Nat × List Char
  | c :: cs, acc => if c.isDigit then parseNatAux cs (acc * 10 + digitVal c) else (acc, c :: cs)
  | [], acc => (acc, [])

/-- Read four hexadecimal digits of a `\uXXXX` escape. -/
def parseHex4 : List Char → Option (Nat × List Char)
  | h1 :: h2 :: h3 :: h4 :: cs =>
    if isHexDigit h1 && isHexDigit h2 && isHexDigit h3 && isHexDigit h4 then
      some (((hexVal h1 * 16 + hexVal h2) * 16 + hexVal h3) * 16 + hexVal h4, cs)
    else none
  | _ => none

/-- Decode one escape sequence after a backslash. -/
def parseEscape : List Char → Option (Char × List Char)
  | [] => none
  | e :: cs2 =>
    if e = '"' then some ('"', cs2)
    else if e = '\\' then some ('\\', cs2)
    else if e = '/' then some ('/', cs2)
    else if e = 'b' then some ('\x08', cs2)
    else if e = 'f' then some ('\x0c', cs2)
    else if e = 'n' then some ('\x0a', cs2)
    else if e = 'r' then some ('\x0d', cs2)
    else if e = 't' then some ('\x09', cs2)
    else if e = 'u' then
      match parseHex4 cs2 with
      | some (code, cs3) => some (Char.ofNat code, cs3)
      | none => none
    else none

/-- Parse the body of a JSON string literal after the opening quote,
decoding escapes, up to and including the closing quote. Unescaped
control characters are rejected, as `JSON.parse` rejects them.
Structural recursion on a fuel bound; any fuel exceeding the input
length is enough, since every step consumes at least one character. -/
def parseStringBody : Nat → List Char → Option (List Char × List Char)
  | 0, _ => none
  | _ + 1, [] => none
  | fuel + 1, c :: cs =>
    if c = '"' then some ([], cs)
    else if c = '\\' then
      match parseEscape cs with
      | some (d, cs2) => (parseStringBody fuel cs2).map (fun p => (d :: p.1, p.2))
      | none => none
    else if c.toNat < 32 then none
    else (parseStringBody fuel cs).map (fun p => (c :: p.1, p.2))

/-- Parse an integral JSON number (optional minus sign, then digits). -/
def parseNumber : List Char → Option (Json × List Char)
  | [] => none
  | c :: cs =>
    if c = '-' then
      match cs with
      | d :: _ =>
          if d.isDigit then
            let p := parseNatAux cs 0
            some (Json.num (-(p.1 : Int)), p.2)
          else none
      | [] => none
    else if c.isDigit then
      let p := parseNatAux (c :: cs) 0
      some (Json.num (p.1 : Int), p.2)
    else none

mutual

/-- Recursive-descent model of `JSON.parse` on the integral fragment:
parse one JSON value, returning it with the unconsumed suffix. `fuel`
bounds the nesting recursion; the top-level entry point supplies more
fuel than any document of the given length can need. -/
def parseValue : Nat → List Char → Option (Json × List Char)
  | 0, _ => none
  | fuel + 1, cs =>
    match skipWs cs with
    | [] => none
    | c :: cs' =>
      if c = 'n' then
        match cs' with
        | 'u' :: 'l' :: 'l' :: rest => some (Json.null, rest)
        | _ => none
      else if c = 't' then
        match cs' with
        | 'r' :: 'u' :: 'e' :: rest => some (Json.bool true, rest)
        | _ => none
      else if c = 'f' then
        match cs' with
        | 'a' :: 'l' :: 's' :: 'e' :: rest => some (Json.bool false, rest)
        | _ => none
      else if c = '"' then
        (parseStringBody (cs'.length + 1) cs').map (fun p => (Json.str (String.mk p.1), p.2))
      else if c = '[' then
        match skipWs cs' with
        | [] => none
        | d :: r2 =>
          if d = ']' then some (Json.arr [], r2)
          else (parseElems fuel (d :: r2)).map (fun p => (Json.arr p.1, p.2))
      else if c = '\x7b' then
        match skipWs cs' with
        | [] => none
        | d :: r2 =>
          if d = '\x7d' then some (Json.obj [], r2)
          else (parseMembers fuel (d :: r2)).map (fun p => (Json.obj p.1, p.2))
      else parseNumber (c :: cs')

/-- Parse the elements of a non-empty array, consuming the closing
bracket. -/
def parseElems : Nat → List Char → Option (List Json × List Char)
  | 0, _ => none
  | fuel + 1, cs =>
    match parseValue fuel cs with
    | none => none
    | some (v, rest) =>
      match skipWs rest with
      | ',' :: r2 => (parseElems fuel r2).map (fun p => (v :: p.1, p.2))
      | ']' :: r2 => some ([v], r2)
      | _ => none

/-- Parse the members of a non-empty object, consuming the closing
brace. -/
def parseMembers : Nat → List Char → Option (List (String × Json) × List Char)
  | 0, _ => none
  | fuel + 1, cs =>
    match skipWs cs with
    | '"' :: rest =>
      match parseStringBody (rest.length + 1) rest with
      | none => none
      | some (k, r1) =>
        match skipWs r1 with
        | ':' :: r2 =>
          match parseValue fuel r2 with
          | none => none
          | some (v, r3) =>
            match skipWs r3 with
            | ',' :: r4 => (parseMembers fuel r4).map (fun p => ((String.mk k, v) :: p.1, p.2))
            | '\x7d' :: r4 => some ([(String.mk k, v)], r4)
            | _ => none
        | _ => none
    | _ => none

end

/-- Model of the `JSON.parse` builtin on the integral fragment: a
document is one JSON value, optionally surrounded by whitespace;
anything else is a parse error (`none`, standing for the thrown
`SyntaxError`). -/
def Json.parse (s : String) : Option Json :=
  match parseValue (s.data.length + 1) s.data with
  | some (v, rest) => if skipWs rest = [] then some v else none
  | none => none

/-- UTF-8 encoding of one Unicode scalar value, as Node's
`hash.update(str)` encodes strings by default. -/
def utf8Char (n : Nat) : List Nat :=
  if n < 0x80 then [n]
  else if n < 0x800 then [0xc0 + n / 64, 0x80 + n % 64]
  else if n < 0x10000 then [0xe0 + n / 4096, 0x80 + n / 64 % 64, 0x80 + n % 64]
  else [0xf0 + n / 262144, 0x80 + n / 4096 % 64, 0x80 + n / 64 % 64, 0x80 + n % 64]

/-- UTF-8 bytes of a string. -/
def utf8Bytes (s : String) : List Nat := s.data.flatMap (fun c => utf8Char c.toNat)

/-- MD5 per-round left-rotation amounts. -/
def md5Shift : List Nat :=
  [7, 12, 17, 22, 7, 12, 17, 22, 7, 12, 17, 22, 7, 12, 17, 22,
   5, 9, 14, 20, 5, 9, 14, 20, 5, 9, 14, 20, 5, 9, 14, 20,
   4, 11, 16, 23, 4, 11, 16, 23, 4, 11, 16, 23, 4, 11, 16, 23,
   6, 10, 15, 21, 6, 10, 15, 21, 6, 10, 15, 21, 6, 10, 15, 21]

/-- MD5 sine-derived round constants. -/
def md5K : List Nat :=
  [0xd76aa478, 0xe8c7b756, 0x242070db, 0xc1bdceee,
   0xf57c0faf, 0x4787c62a, 0xa8304613, 0xfd469501,
   0x698098d8, 0x8b44f7af, 0xffff5bb1, 0x895cd7be,
   0x6b901122, 0xfd987193, 0xa679438e, 0x49b40821,
   0xf61e2562, 0xc040b340, 0x265e5a51, 0xe9b6c7aa,
   0xd62f105d, 0x02441453, 0xd8a1e681, 0xe7d3fbc8,
   0x21e1cde6, 0xc33707d6, 0xf4d50d87, 0x455a14ed,
   0xa9e3e905, 0xfcefa3f8, 0x676f02d9, 0x8d2a4c8a,
   0xfffa3942, 0x8771f681, 0x6d9d6122, 0xfde5380c,
   0xa4beea44, 0x4bdecfa9, 0xf6bb4b60, 0xbebfbc70,
   0x289b7ec6, 0xeaa127fa, 0xd4ef3085, 0x04881d05,
   0xd9d4d039, 0xe6db99e5, 0x1fa27cf8, 0xc4ac5665,
   0xf4292244, 0x432aff97, 0xab9423a7, 0xfc93a039,
   0x655b59c3, 0x8f0ccc92, 0xffeff47d, 0x85845dd1,
   0x6fa87e4f, 0xfe2ce6e0, 0xa3014314, 0x4e0811a1,
   0xf7537e82, 0xbd3af235, 0x2ad7d2bb, 0xeb86d391]

/-- 32-bit left rotation. -/
def rotl32 (x c : Nat) : Nat := ((x <<< c) ||| (x >>> (32 - c))) % 4294967296

/-- MD5 padding: append `0x80`, zero bytes up to 56 mod 64, then the
original bit length as eight little-endian bytes. -/
def md5Pad (msg : List Nat) : List Nat :=
  let len := msg.length
  let zeros := (120 - (len + 1) % 64) % 64
  let bitLen := (len * 8) % 18446744073709551616
  msg ++ 0x80 :: List.replicate zeros 0 ++
    [bitLen % 256, bitLen / 256 % 256, bitLen / 65536 % 256, bitLen / 16777216 % 256,
     bitLen / 4294967296 % 256, bitLen / 1099511627776 % 256,
     bitLen / 281474976710656 % 256, bitLen / 72057594037927936 % 256]

/-- Split a byte list into 64-byte chunks; structural recursion on a
fuel bound (the list length suffices, as each step drops 64 bytes). -/
def chunks64Aux : Nat → List Nat → List (List Nat)
  | 0, _ => []
  | fuel + 1, l => if l = [] then [] else l.take 64 :: chunks64Aux fuel (l.drop 64)

/-- Split a byte list into 64-byte chunks. -/
def chunks64 (l : List Nat) : List (List Nat) := chunks64Aux l.length l

/-- Little-endian 32-bit word `j` of a 64-byte chunk. -/
def chunkWord (chunk : List Nat) (j : Nat) : Nat :=
  chunk.getD (4 * j) 0 + 256 * chunk.getD (4 * j + 1) 0 +
    65536 * chunk.getD (4 * j + 2) 0 + 16777216 * chunk.getD (4 * j + 3) 0

/-- One of the 64 MD5 mixing steps. -/
def md5Step (chunk : List Nat) (st : Nat × Nat × Nat × Nat) (i : Nat) : Nat × Nat × Nat × Nat :=
  let (a, b, c, d) := st
  let fg : Nat × Nat :=
    if i < 16 then ((b &&& c) ||| ((b ^^^ 0xffffffff) &&& d), i)
    else if i < 32 then ((d &&& b) ||| ((d ^^^ 0xffffffff) &&& c), (5 * i + 1) % 16)
    else if i < 48 then (b ^^^ c ^^^ d, (3 * i + 5) % 16)
    else (c ^^^ (b ||| (d ^^^ 0xffffffff)), (7 * i) % 16)
  let f := (fg.1 + a + md5K.getD i 0 + chunkWord chunk fg.2) % 4294967296
  (d, (b + rotl32 f (md5Shift.getD i 0)) % 4294967296, b, c)

/-- Process one 64-byte chunk, updating the four state words. -/
def md5Chunk (st : Nat × Nat × Nat × Nat) (chunk : List Nat) : Nat × Nat × Nat × Nat :=
  let (a0, b0, c0, d0) := st
  let (a, b, c, d) := (List.range 64).foldl (md5Step chunk) (a0, b0, c0, d0)
  ((a0 + a) % 4294967296, (b0 + b) % 4294967296, (c0 + c) % 4294967296, (d0 + d) % 4294967296)

/-- Little-endian bytes of a 32-bit word. -/
def le4 (x : Nat) : List Nat := [x % 256, x / 256 % 256, x / 65536 % 256, x / 16777216 % 256]

/-- MD5 digest (16 bytes) of a byte list. -/
def md5Digest (msg : List Nat) : List Nat :=
  let st := (chunks64 (md5Pad msg)).foldl md5Chunk (0x67452301, 0xefcdab89, 0x98badcfe, 0x10325476)
  le4 st.1 ++ le4 st.2.1 ++ le4 st.2.2.1 ++ le4 st.2.2.2

/-- Lowercase hex rendering of a byte list. -/
def hexOfBytes (bytes : List Nat) : List Char :=
  bytes.flatMap (fun b => [hexDigitChar (b / 16 % 16), hexDigitChar (b % 16)])

/-- Model of `crypto.createHash('md5').update(str).digest('hex')`. -/
def md5Hex (s : String) : String := String.mk (hexOfBytes (md5Digest (utf8Bytes s)))

/-- One row of the SQLite `cache` table, per the schema created in
`SQLiteCache.init`:
`(key TEXT PRIMARY KEY, value TEXT NOT NULL, expires_at INTEGER NOT NULL,
 created_at INTEGER DEFAULT (unixepoch()),
 accessed_at INTEGER DEFAULT (unixepoch()), hit_count INTEGER DEFAULT 1)`.
The key is kept beside the row in the store. -/
structure Row where
  value : String
  expires_at : Int
  created_at : Int
  accessed_at : Int
  hit_count : Nat
deriving DecidableEq, Repr

/-- The `cache` table as an association list of keyed rows. The
PRIMARY KEY constraint makes reachable stores have pairwise-distinct
keys. -/
def Store := List (String × Row)

instance : DecidableEq Store := inferInstanceAs (DecidableEq (List (String × Row)))

instance : Inhabited Store := ⟨[]⟩

/-- `SELECT ... FROM cache WHERE key = ?`: the row for a key, if any. -/
def storeLookup (st : Store) (k : String) : Option Row :=
  (st.find? (fun kr => kr.1 == k)).map Prod.snd

/-- `DELETE FROM cache WHERE key = ?`: remove the row(s) for a key. -/
def storeErase (st : Store) (k : String) : Store :=
  st.filter (fun kr => kr.1 != k)

/-- The prepared `set` statement,
`INSERT OR REPLACE INTO cache (key, value, expires_at, accessed_at, hit_count)
 VALUES (?, ?, ?, unixepoch(), 1)`.
`INSERT OR REPLACE` deletes any conflicting row and inserts a fresh
one; the unmentioned `created_at` column therefore takes its column
DEFAULT `unixepoch()` again. -/
def sqlSet (st : Store) (now : Int) (k : String) (serialized : String) (expiresAt : Int) : Store :=
  (k, { value := serialized, expires_at := expiresAt, created_at := now,
        accessed_at := now, hit_count := 1 }) :: storeErase st k

/-- The prepared `get` statement,
`SELECT value, expires_at, hit_count FROM cache WHERE key = ? AND expires_at > unixepoch()`. -/
def sqlGet (st : Store) (now : Int) (k : String) : Option Row :=
  match storeLookup st k with
  | some r => if r.expires_at > now then some r else none
  | none => none

/-- The prepared `updateAccess` statement,
`UPDATE cache SET accessed_at = unixepoch(), hit_count = hit_count + 1 WHERE key = ?`. -/
def sqlUpdateAccess (st : Store) (now : Int) (k : String) : Store :=
  st.map (fun kr =>
    if kr.1 = k then (kr.1, { kr.2 with accessed_at := now, hit_count := kr.2.hit_count + 1 })
    else kr)

/-- The prepared `has` statement,
`SELECT 1 FROM cache WHERE key = ? AND expires_at > unixepoch()`, as an
existence test. -/
def sqlHas (st : Store) (now : Int) (k : String) : Bool :=
  (sqlGet st now k).isSome

/-- The prepared `cleanup` statement,
`DELETE FROM cache WHERE expires_at <= unixepoch()`: surviving rows. -/
def sqlCleanup (st : Store) (now : Int) : Store :=
  st.filter (fun kr => kr.2.expires_at > now)

/-- Rows the `cleanup` statement deletes (its `changes` count). -/
def sqlCleanupCount (st : Store) (now : Int) : Nat :=
  st.countP (fun kr => decide (kr.2.expires_at ≤ now))

/-- Error conditions a `SQLiteCache` method can surface. Every genuine
failure is thrown as `new Error(message)`; the distinguished
`Cache not initialized` message is modelled as its own constructor. -/
inductive CacheErr where
  | notInitialized
  | opFailed (msg : String)
deriving DecidableEq, Repr

/-- The `SQLiteCache` instance state. `db` is `none` exactly when
`this.db` is `null` in the source: before `init()` and after
`close()`. The background cleanup timer, the database path and the
prepared-statement cache are process resources outside this state
model. -/
structure CacheEngine where
  defaultTTL : Int
  db : Option Store
deriving DecidableEq

/-- The constructor `new SQLiteCache(dbPath, options)`: `this.db = null`
until `init()` runs. -/
def CacheEngine.create (defaultTTL : Int) : CacheEngine :=
  { defaultTTL := defaultTTL, db := none }

/-- `init()`: opens the database and creates the `cache` table if
missing. A fresh (in-memory or newly created) database starts empty;
reopening an existing on-disk file would instead surface its persisted
rows, so the initial store is a parameter. -/
def SQLiteCache.init (e : CacheEngine) (initial : Store) : CacheEngine :=
  { e with db := some initial }

/-- `set(key, value, ttl = null)`. `ttl || this.defaultTTL` falls back
to the default whenever `ttl` is absent *or falsy* (in particular when
`ttl` is `0`); `expires_at = floor(Date.now()/1000) + actualTTL`. -/
def SQLiteCache.set (e : CacheEngine) (now : Int) (key : String) (value : Json)
    (ttl : Option Int) : Except CacheErr Bool × CacheEngine :=
  match e.db with
  | none => (Except.error CacheErr.notInitialized, e)
  | some st =>
    let actualTTL := match ttl with
      | some t => if t = 0 then e.defaultTTL else t
      | none => e.defaultTTL
    let expiresAt := now + actualTTL
    let serializedValue := Json.stringify value
    (Except.ok true, { e with db := some (sqlSet st now key serializedValue expiresAt) })

/-- `get(key)`: `null` for a missing or expired key; otherwise bump the
access statistics, then deserialize. A corrupt stored blob makes
`JSON.parse` throw (after the access bump has already run). -/
def SQLiteCache.get (e : CacheEngine) (now : Int) (key : String) :
    Except CacheErr Json × CacheEngine :=
  match e.db with
  | none => (Except.error CacheErr.notInitialized, e)
  | some st =>
    match sqlGet st now key with
    | none => (Except.ok Json.null, e)
    | some row =>
      let bumped := { e with db := some (sqlUpdateAccess st now key) }
      match Json.parse row.value with
      | some v => (Except.ok v, bumped)
      | none => (Except.error (CacheErr.opFailed "Failed to get cache"), bumped)

/-- `has(key)`: active-existence test; mutates nothing. -/
def SQLiteCache.has (e : CacheEngine) (now : Int) (key : String) :
    Except CacheErr Bool × CacheEngine :=
  match e.db with
  | none => (Except.error CacheErr.notInitialized, e)
  | some st => (Except.ok (sqlHas st now key), e)

/-- `delete(key)`: returns `result.changes > 0`. -/
def SQLiteCache.delete (e : CacheEngine) (key : String) :
    Except CacheErr Bool × CacheEngine :=
  match e.db with
  | none => (Except.error CacheErr.notInitialized, e)
  | some st =>
    (Except.ok (storeLookup st key).isSome, { e with db := some (storeErase st key) })

/-- `clear()`: `DELETE FROM cache`, unconditionally. -/
def SQLiteCache.clear (e : CacheEngine) : Except CacheErr Bool × CacheEngine :=
  match e.db with
  | none => (Except.error CacheErr.notInitialized, e)
  | some _ => (Except.ok true, { e with db := some ([] : Store) })

/-- `cleanup()`: note the guard `if (!this.db) return 0;` — unlike every
other operation, an uninitialized or closed engine yields a normal `0`
result rather than the `Cache not initialized` error. -/
def SQLiteCache.cleanup (e : CacheEngine) (now : Int) : Except CacheErr Nat × CacheEngine :=
  match e.db with
  | none => (Except.ok 0, e)
  | some st =>
    (Except.ok (sqlCleanupCount st now), { e with db := some (sqlCleanup st now) })

/-- The aggregate snapshot produced by `stats()`. `hit_rate` is the
string produced by `toFixed(2)` (or the literal `'0.00'`). -/
structure CacheStats where
  total : Nat
  active : Nat
  expired : Nat
  avg_size : Nat
  total_hits : Nat
  hit_rate : String
deriving DecidableEq, Repr

/-- Round-half-up value of `num / den` scaled to hundredths, the exact
rational behind `(num / den).toFixed(2)` (the model idealizes the
binary-float detour of the JavaScript division). -/
def hundredths (num den : Nat) : Nat := (200 * num + den) / (2 * den)

/-- Render a hundredths count as a decimal string `d.dd`, as `toFixed(2)`
formats it. -/
def fmtHundredths (h : Nat) : String :=
  String.mk (natChars (h / 100)) ++ "." ++
    (if h % 100 < 10 then "0" ++ String.mk (natChars (h % 100))
     else String.mk (natChars (h % 100)))

/-- `Math.round(x)` on the exact rational `num / den` (floor of `x + 1/2`). -/
def jsRound (num den : Nat) : Nat := (2 * num + den) / (2 * den)

/-- `stats()`: the single aggregate row
`COUNT(*), SUM(active-case), SUM(expired-case), AVG(LENGTH(value)), SUM(hit_count)`
with the `|| 0` null-coalescing and formatting of the method body. -/
def SQLiteCache.stats (e : CacheEngine) (now : Int) : Except CacheErr CacheStats × CacheEngine :=
  match e.db with
  | none => (Except.error CacheErr.notInitialized, e)
  | some st =>
    let total := st.length
    let active := st.countP (fun kr => decide (kr.2.expires_at > now))
    let expired := st.countP (fun kr => decide (kr.2.expires_at ≤ now))
    let sumLen := (st.map (fun kr => kr.2.value.length)).sum
    let totalHits := (st.map (fun kr => kr.2.hit_count)).sum
    (Except.ok
      { total := total
        active := active
        expired := expired
        avg_size := if total = 0 then 0 else jsRound sumLen total
        total_hits := totalHits
        hit_rate := if total > 0 then fmtHundredths (hundredths totalHits total) else "0.00" },
     e)

/-- One snapshot of `getAllEntries`: timestamps become `Date` objects,
modelled by their millisecond value `seconds * 1000`. -/
structure EntrySnapshot where
  key : String
  value : Json
  expires_at : Int
  created_at : Int
  accessed_at : Int
  hit_count : Nat

/-- Insertion sort of rows by descending `accessed_at` (the
`ORDER BY accessed_at DESC` of the `getAll` statement; ties are in an
unspecified order there, and this model fixes one). -/
def insertByAccess (kr : String × Row) : List (String × Row) → List (String × Row)
  | [] => [kr]
  | x :: xs =>
    if kr.2.accessed_at ≥ x.2.accessed_at then kr :: x :: xs
    else x :: insertByAccess kr xs

/-- Sort rows by descending `accessed_at`. -/
def sortByAccess : List (String × Row) → List (String × Row)
  | [] => []
  | x :: xs => insertByAccess x (sortByAccess xs)

/-- `getAllEntries(limit = 50)`: active rows, most recently accessed
first, capped at `limit`, each deserialized. A corrupt blob anywhere in
the selection makes the whole call throw. -/
def SQLiteCache.getAllEntries (e : CacheEngine) (now : Int) (limit : Nat) :
    Except CacheErr (List EntrySnapshot) × CacheEngine :=
  match e.db with
  | none => (Except.error CacheErr.notInitialized, e)
  | some st =>
    let rows := (sortByAccess (st.filter (fun kr => kr.2.expires_at > now))).take limit
    let snaps := rows.mapM (fun kr =>
      (Json.parse kr.2.value).map (fun v =>
        { key := kr.1, value := v, expires_at := kr.2.expires_at * 1000,
          created_at := kr.2.created_at * 1000, accessed_at := kr.2.accessed_at * 1000,
          hit_count := kr.2.hit_count }))
    match snaps with
    | some entries => (Except.ok entries, e)
    | none => (Except.error (CacheErr.opFailed "Failed to get all entries"), e)

/-- `close()`: stops the timer, finalizes statements, closes the
database and sets `this.db = null`; idempotent, and every later
operation sees the uninitialized state. -/
def SQLiteCache.close (e : CacheEngine) : CacheEngine := { e with db := none }

/-- The `typeof input === 'string' ? input : JSON.stringify(input)`
selector inside `generateKey`. -/
def toKeySource : Json → String
  | Json.str s => s
  | v => Json.stringify v

/-- `static generateKey(input)`: MD5 hex digest of the input string, or
of its `JSON.stringify` serialization for non-string input. -/
def SQLiteCache.generateKey (input : Json) : String := md5Hex (toKeySource input)

/-- JavaScript truthiness of a `Json` value, as the middleware's
`if (cached)` test evaluates it: `null`, `false`, `0` and the empty
string are falsy; every array and object (even empty) is truthy. -/
def jsTruthy : Json → Bool
  | Json.null => false
  | Json.bool b => b
  | Json.num n => decide (n ≠ 0)
  | Json.str s => decide (s ≠ "")
  | Json.arr _ => true
  | Json.obj _ => true

/-- The request descriptor the middleware consults. -/
structure Request where
  method : String
  originalUrl : String

/-- `createCacheMiddleware` options with their defaults. The key
generator is a caller-supplied function and may throw, modelled by
`Except String`. -/
structure MWOptions where
  keyGenerator : Request → Except String String
  ttl : Int
  condition : Request → Bool
  skipSuccessful : Bool

/-- The default options of `createCacheMiddleware`. -/
def defaultMWOptions : MWOptions :=
  { keyGenerator := fun req => Except.ok (req.method ++ ":" ++ req.originalUrl)
    ttl := 300
    condition := fun _ => true
    skipSuccessful := false }

/-- Options with a fixed cache key, for concrete middleware scenarios. -/
def constKeyOptions (k : String) : MWOptions :=
  { keyGenerator := fun _ => Except.ok k
    ttl := 300
    condition := fun _ => true
    skipSuccessful := false }

/-- Options whose key generator throws, for the key-derivation failure
scenario. -/
def throwingKeyOptions : MWOptions :=
  { keyGenerator := fun _ => Except.error "boom"
    ttl := 300
    condition := fun _ => true
    skipSuccessful := false }

/-- Observable outcome of one request through the middleware.
`handlerInvoked` records whether `next()` reached the wrapped unit of
work; `thrown` a synchronous error propagated out of the middleware
(becoming the request's error); `responseData` the payload forwarded to
the transport; the header fields the `X-Cache-Hit` / `X-Cache-Key`
annotations. -/
structure MWOutcome where
  handlerInvoked : Bool
  thrown : Option String
  responseData : Option Json
  cacheHitHeader : Option String
  cacheKeyHeader : Option String
  engine : CacheEngine

/-- One request through the function returned by
`createCacheMiddleware(cache, options)`, for a handler that terminates
by `res.json(handlerData)` with status `handlerStatus`. Control flow of
the source, in order: the condition/method bypass; `keyGenerator(req)`
*outside* the `try` (a throw here propagates and `next()` never runs);
`cache.get` inside the `try` (a throw is caught and `next()` runs
unpatched); the truthy-hit short circuit; otherwise patching `res.json`
so that after the handler produces a 2xx result it is stored
best-effort (a `cache.set` throw is swallowed by the inner catch and
the response still goes out). -/
def runMiddleware (cache : CacheEngine) (now : Int) (opts : MWOptions) (req : Request)
    (handlerStatus : Nat) (handlerData : Json) : MWOutcome :=
  if opts.condition req = false ∨ req.method ≠ "GET" then
    { handlerInvoked := true, thrown := none, responseData := some handlerData,
      cacheHitHeader := none, cacheKeyHeader := none, engine := cache }
  else
    match opts.keyGenerator req with
    | Except.error msg =>
      { handlerInvoked := false, thrown := some msg, responseData := none,
        cacheHitHeader := none, cacheKeyHeader := none, engine := cache }
    | Except.ok cacheKey =>
      match SQLiteCache.get cache now cacheKey with
      | (Except.error _, e1) =>
        { handlerInvoked := true, thrown := none, responseData := some handlerData,
          cacheHitHeader := none, cacheKeyHeader := none, engine := e1 }
      | (Except.ok cached, e1) =>
        if jsTruthy cached then
          { handlerInvoked := false, thrown := none, responseData := some cached,
            cacheHitHeader := some "true", cacheKeyHeader := some cacheKey, engine := e1 }
        else
          if opts.skipSuccessful = false ∧ 200 ≤ handlerStatus ∧ handlerStatus < 300 then
            match SQLiteCache.set e1 now cacheKey handlerData (some opts.ttl) with
            | (Except.ok _, e2) =>
              { handlerInvoked := true, thrown := none, responseData := some handlerData,
                cacheHitHeader := some "false", cacheKeyHeader := some cacheKey, engine := e2 }
            | (Except.error _, e2) =>
              { handlerInvoked := true, thrown := none, responseData := some handlerData,
                cacheHitHeader := none, cacheKeyHeader := none, engine := e2 }
          else
            { handlerInvoked := true, thrown := none, responseData := some handlerData,
              cacheHitHeader := none, cacheKeyHeader := none, engine := e1 }

/-- The cache-engine operations, for statements quantifying over every
operation (`stats` and `getAllEntries` do not mutate the store but are
included for completeness). -/
inductive EngineOp where
  | opSet (key : String) (value : Json) (ttl : Option Int)
  | opGet (key : String)
  | opHas (key : String)
  | opDelete (key : String)
  | opClear
  | opCleanup
  | opStats
  | opGetAll (limit : Nat)

/-- Post-state of one engine operation. -/
def applyOp (e : CacheEngine) (now : Int) : EngineOp → CacheEngine
  | EngineOp.opSet k v t => (SQLiteCache.set e now k v t).2
  | EngineOp.opGet k => (SQLiteCache.get e now k).2
  | EngineOp.opHas k => (SQLiteCache.has e now k).2
  | EngineOp.opDelete k => (SQLiteCache.delete e k).2
  | EngineOp.opClear => (SQLiteCache.clear e).2
  | EngineOp.opCleanup => (SQLiteCache.cleanup e now).2
  | EngineOp.opStats => (SQLiteCache.stats e now).2
  | EngineOp.opGetAll lim => (SQLiteCache.getAllEntries e now lim).2

/-- Recursively sort object fields by key, the canonical form for
comparing structurally equivalent values that differ only in property
order. -/
def insertField (kv : String × Json) : List (String × Json) → List (String × Json)
  | [] => [kv]
  | x :: xs => if kv.1 ≤ x.1 then kv :: x :: xs else x :: insertField kv xs

/-- Insertion sort of object fields by key. -/
def sortFields : List (String × Json) → List (String × Json)
  | [] => []
  | x :: xs => insertField x (sortFields xs)

mutual

/-- Canonical form of a value under reordering of object properties. -/
def jsonCanon : Json → Json
  | Json.null => Json.null
  | Json.bool b => Json.bool b
  | Json.num n => Json.num n
  | Json.str s => Json.str s
  | Json.arr xs => Json.arr (jsonCanonList xs)
  | Json.obj fs => Json.obj (sortFields (jsonCanonFields fs))

/-- Canonical forms of a list of values. -/
def jsonCanonList : List Json → List Json
  | [] => []
  | x :: xs => jsonCanon x :: jsonCanonList xs

/-- Canonical forms of object fields (before sorting). -/
def jsonCanonFields : List (String × Json) → List (String × Json)
  | [] => []
  | (k, v) :: fs => (k, jsonCanon v) :: jsonCanonFields fs

end

/-- Structural equivalence of two values: equal up to the order of
object properties. -/
def structEquiv (a b : Json) : Prop := jsonCanon a = jsonCanon b

mutual

/-- Fuel sufficient for `parseValue` to parse this value. -/
def needFuel : Json → Nat
  | Json.null => 1
  | Json.bool _ => 1
  | Json.num _ => 1
  | Json.str _ => 1
  | Json.arr xs => 1 + needFuelElems xs
  | Json.obj fs => 1 + needFuelMembers fs

/-- Fuel sufficient for `parseElems` on these (non-empty) elements. -/
def needFuelElems : List Json → Nat
  | [] => 0
  | x :: xs => 1 + max (needFuel x) (needFuelElems xs)

/-- Fuel sufficient for `parseMembers` on these (non-empty) members. -/
def needFuelMembers : List (String × Json) → Nat
  | [] => 0
  | (_k, v) :: fs => 1 + max (needFuel v) (needFuelMembers fs)

end

/-- The suffix following a serialized value never continues it: in the
round-trip argument it is empty or starts with a separator, never with
a digit. -/
def headNotDigit : List Char → Prop
  | [] => True
  | c :: _ => c.isDigit = false

theorem digitChar_isDigit (n : Nat) (h : n < 10) : (digitChar n).isDigit = true := by
  interval_cases n <;> decide

theorem digitVal_digitChar (n : Nat) (h : n < 10) : digitVal (digitChar n) = n := by
  interval_cases n <;> decide

/-- A decimal digit character is none of the characters the parser
treats as structure, whitespace or sign. -/
theorem isDigit_sep (c : Char) (h : c.isDigit = true) :
    isWsChar c = false ∧ c ≠ 'n' ∧ c ≠ 't' ∧ c ≠ 'f' ∧ c ≠ '"' ∧ c ≠ '[' ∧
      c ≠ '\x7b' ∧ c ≠ '-' ∧ c ≠ ']' ∧ c ≠ '\x7d' ∧ c ≠ ',' := by
  have hsp : c ≠ ' ' := fun he => absurd h (by subst he; decide)
  have htb : c ≠ '\x09' := fun he => absurd h (by subst he; decide)
  have hlf : c ≠ '\x0a' := fun he => absurd h (by subst he; decide)
  have hcr : c ≠ '\x0d' := fun he => absurd h (by subst he; decide)
  refine ⟨by simp [isWsChar, hsp, htb, hlf, hcr], ?_, ?_, ?_, ?_, ?_, ?_, ?_, ?_, ?_, ?_⟩ <;>
    exact fun he => absurd h (by subst he; decide)

theorem skipWs_cons_of_not_ws (c : Char) (cs : List Char) (h : isWsChar c = false) :
    skipWs (c :: cs) = c :: cs := by
  simp [skipWs, h]

theorem natCharsAux_head (fuel : Nat) : ∀ n, n < fuel →
    ∃ c t, natCharsAux fuel n = c :: t ∧ c.isDigit = true := by
  induction fuel with
  | zero => omega
  | succ fuel ih =>
    intro n _h
    by_cases h10 : n < 10
    · exact ⟨digitChar n, [], by simp [natCharsAux, h10], digitChar_isDigit n h10⟩
    · have hlt : n / 10 < n := Nat.div_lt_self (by omega) (by decide)
      obtain ⟨c, t, he, hd⟩ := ih (n / 10) (by omega)
      exact ⟨c, t ++ [digitChar (n % 10)], by simp [natCharsAux, h10, he], hd⟩

theorem natChars_head (n : Nat) :
    ∃ c t, natChars n = c :: t ∧ c.isDigit = true :=
  natCharsAux_head (n + 1) n (Nat.lt_succ_self n)

theorem parseNatAux_append (fuel : Nat) : ∀ n acc rest, n < fuel →
    parseNatAux (natCharsAux fuel n ++ rest) acc =
      parseNatAux rest (acc * 10 ^ (natCharsAux fuel n).length + n) := by
  induction fuel with
  | zero => omega
  | succ fuel ih =>
    intro n acc rest _h
    by_cases h10 : n < 10
    · simp only [natCharsAux, if_pos h10, List.singleton_append, List.length_singleton,
        parseNatAux, digitChar_isDigit n h10, if_pos, pow_one, digitVal_digitChar n h10]
    · have hlt : n / 10 < n := Nat.div_lt_self (by omega) (by decide)
      have hm : n % 10 < 10 := Nat.mod_lt n (by omega)
      simp only [natCharsAux, if_neg h10, List.append_assoc, List.singleton_append]
      rw [ih (n / 10) acc (digitChar (n % 10) :: rest) (by omega)]
      simp only [parseNatAux, digitChar_isDigit _ hm, if_pos, digitVal_digitChar _ hm,
        List.length_append, List.length_singleton]
      congr 1
      have hdm : 10 * (n / 10) + n % 10 = n := Nat.div_add_mod n 10
      set L := (natCharsAux fuel (n / 10)).length with hL
      rw [pow_succ]
      ring_nf
      omega

theorem parseNatAux_stop (acc : Nat) (rest : List Char) (h : headNotDigit rest) :
    parseNatAux rest acc = (acc, rest) := by
  cases rest with
  | nil => rfl
  | cons c cs => simp only [headNotDigit] at h; simp [parseNatAux, h]

theorem parseNatAux_natChars (n acc : Nat) (rest : List Char) (h : headNotDigit rest) :
    parseNatAux (natChars n ++ rest) acc = (acc * 10 ^ (natChars n).length + n, rest) := by
  rw [natChars, parseNatAux_append (n + 1) n acc rest (Nat.lt_succ_self n)]
  exact parseNatAux_stop _ _ h

theorem parseNumber_intChars (i : Int) (rest : List Char) (h : headNotDigit rest) :
    parseNumber (intChars i ++ rest) = some (Json.num i, rest) := by
  cases i with
  | ofNat n =>
    obtain ⟨c, t, he, hd⟩ := natChars_head n
    obtain ⟨_, _, _, _, _, _, _, hminus, _, _, _⟩ := isDigit_sep c hd
    have hp : parseNatAux (c :: (t ++ rest)) 0 = (n, rest) := by
      have hq := parseNatAux_natChars n 0 rest h
      rw [he] at hq
      simpa using hq
    simp only [intChars, he, List.cons_append, parseNumber, if_neg hminus, hd, if_pos, hp]
    rfl
  | negSucc m =>
    obtain ⟨c, t, he, hd⟩ := natChars_head (m + 1)
    have hp : parseNatAux (c :: (t ++ rest)) 0 = (m + 1, rest) := by
      have hq := parseNatAux_natChars (m + 1) 0 rest h
      rw [he] at hq
      simpa using hq
    simp only [intChars, he, List.cons_append, parseNumber, if_pos, hd, hp]
    have hne : (-(((m : Nat) + 1 : Nat) : Int)) = Int.negSucc m := by
      rw [Int.negSucc_eq]; push_cast; ring
    rw [hne]

theorem isHexDigit_hexDigitChar (d : Nat) (h : d < 16) :
    isHexDigit (hexDigitChar d) = true := by
  interval_cases d <;> decide

theorem hexVal_hexDigitChar (d : Nat) (h : d < 16) : hexVal (hexDigitChar d) = d := by
  interval_cases d <;> decide

theorem parseStringBody_escChars (fuel : Nat) : ∀ s rest, (escChars s).length < fuel →
    parseStringBody fuel (escChars s ++ '"' :: rest) = some (s, rest) := by
  induction fuel with
  | zero => intro s rest h; omega
  | succ f ih =>
    intro s rest hlen
    cases s with
    | nil => simp +decide [escChars, parseStringBody]
    | cons c s =>
      have hstep : escChars (c :: s) = escapeChar c ++ escChars s := by simp [escChars]
      rw [hstep, List.append_assoc]
      have hlc : 1 ≤ (escapeChar c).length := by
        simp only [escapeChar]; split_ifs <;> simp
      have hf : (escChars s).length < f := by
        rw [hstep] at hlen; simp only [List.length_append] at hlen; omega
      by_cases h1 : c = '"'
      · subst h1; simp +decide [escapeChar, parseStringBody, parseEscape, ih _ _ hf]
      by_cases h2 : c = '\\'
      · subst h2; simp +decide [escapeChar, parseStringBody, parseEscape, ih _ _ hf]
      by_cases h3 : c = '\x08'
      · subst h3; simp +decide [escapeChar, parseStringBody, parseEscape, ih _ _ hf]
      by_cases h4 : c = '\x09'
      · subst h4; simp +decide [escapeChar, parseStringBody, parseEscape, ih _ _ hf]
      by_cases h5 : c = '\x0a'
      · subst h5; simp +decide [escapeChar, parseStringBody, parseEscape, ih _ _ hf]
      by_cases h6 : c = '\x0c'
      · subst h6; simp +decide [escapeChar, parseStringBody, parseEscape, ih _ _ hf]
      by_cases h7 : c = '\x0d'
      · subst h7; simp +decide [escapeChar, parseStringBody, parseEscape, ih _ _ hf]
      by_cases h8 : c.toNat < 32
      · have hhi : c.toNat / 16 < 16 := by omega
        have hlo : c.toNat % 16 < 16 := Nat.mod_lt _ (by decide)
        have hval : ((hexVal '0' * 16 + hexVal '0') * 16 + hexVal (hexDigitChar (c.toNat / 16)))
            * 16 + hexVal (hexDigitChar (c.toNat % 16)) = c.toNat := by
          rw [hexVal_hexDigitChar _ hhi, hexVal_hexDigitChar _ hlo]
          have h0 : hexVal '0' = 0 := by decide
          rw [h0]
          omega
        simp only [escapeChar, if_neg h1, if_neg h2, if_neg h3, if_neg h4, if_neg h5, if_neg h6,
          if_neg h7, if_pos h8, List.cons_append, List.nil_append]
        simp +decide [parseStringBody, parseEscape, parseHex4,
          isHexDigit_hexDigitChar _ hhi, isHexDigit_hexDigitChar _ hlo, hval,
          Char.ofNat_toNat, ih _ _ hf]
      · simp only [escapeChar, if_neg h1, if_neg h2, if_neg h3, if_neg h4, if_neg h5, if_neg h6,
          if_neg h7, if_neg h8, List.cons_append, List.nil_append]
        simp [parseStringBody, if_neg h1, if_neg h2, if_neg h8, ih _ _ hf]

theorem needFuel_pos (v : Json) : 1 ≤ needFuel v := by
  cases v <;> simp [needFuel]

theorem strJsonC_head (v : Json) :
    ∃ c t, strJsonC v = c :: t ∧ isWsChar c = false ∧ c ≠ ']' ∧ c ≠ '\x7d' := by
  cases v with
  | num i =>
    cases i with
    | ofNat n =>
      obtain ⟨c, t, he, hd⟩ := natChars_head n
      obtain ⟨hws, _, _, _, _, _, _, _, hrb, hob, _⟩ := isDigit_sep c hd
      exact ⟨c, t, by simp [strJsonC, intChars, he], hws, hrb, hob⟩
    | negSucc m =>
      refine ⟨'-', natChars (m + 1), by simp [strJsonC, intChars], ?_, ?_, ?_⟩ <;> decide
  | null => refine ⟨'n', ['u', 'l', 'l'], rfl, ?_, ?_, ?_⟩ <;> decide
  | bool b =>
    cases b with
    | true => refine ⟨'t', ['r', 'u', 'e'], rfl, ?_, ?_, ?_⟩ <;> decide
    | false => refine ⟨'f', ['a', 'l', 's', 'e'], rfl, ?_, ?_, ?_⟩ <;> decide
  | str s =>
    refine ⟨'"', escChars s.data ++ ['"'], by simp [strJsonC], ?_, ?_, ?_⟩ <;> decide
  | arr xs =>
    refine ⟨'[', strElemsC xs ++ [']'], by simp [strJsonC], ?_, ?_, ?_⟩ <;> decide
  | obj fs =>
    refine ⟨'\x7b', strMembersC fs ++ ['\x7d'], by simp [strJsonC], ?_, ?_, ?_⟩ <;> decide

theorem strElemsC_head (x : Json) (xs : List Json) :
    ∃ c t, strElemsC (x :: xs) = c :: t ∧ isWsChar c = false ∧ c ≠ ']' := by
  obtain ⟨c, t, he, hws, hrb, _⟩ := strJsonC_head x
  cases xs with
  | nil => exact ⟨c, t, by simp [strElemsC, he], hws, hrb⟩
  | cons y ys => exact ⟨c, t ++ ',' :: strElemsC (y :: ys), by simp [strElemsC, he], hws, hrb⟩

theorem stringMk_data (s : String) : String.mk s.data = s := rfl

/-- Round trip of the parser against the serializer, by induction on the
parser fuel: with enough fuel, `parseValue` consumes exactly the
serialization of a value and returns that value, and likewise for the
element and member sub-parsers. -/
theorem parse_roundtrip (fuel : Nat) :
    (∀ v rest, needFuel v ≤ fuel → headNotDigit rest →
      parseValue fuel (strJsonC v ++ rest) = some (v, rest)) ∧
    (∀ x xs rest, needFuelElems (x :: xs) ≤ fuel →
      parseElems fuel (strElemsC (x :: xs) ++ ']' :: rest) = some (x :: xs, rest)) ∧
    (∀ k v fs rest, needFuelMembers ((k, v) :: fs) ≤ fuel →
      parseMembers fuel (strMembersC ((k, v) :: fs) ++ '\x7d' :: rest) = some ((k, v) :: fs, rest)) := by
  induction fuel with
  | zero =>
    refine ⟨fun v rest hf _ => absurd hf (by have := needFuel_pos v; omega),
      fun x xs rest hf => ?_, fun k v fs rest hf => ?_⟩
    · simp [needFuelElems] at hf
    · simp [needFuelMembers] at hf
  | succ f ih =>
    obtain ⟨ihv, ihe, ihm⟩ := ih
    refine ⟨?_, ?_, ?_⟩
    · intro v rest hf hr
      cases v with
      | null => simp +decide [strJsonC, parseValue, skipWs]
      | bool b => cases b <;> simp +decide [strJsonC, parseValue, skipWs]
      | str s =>
        have hsb := parseStringBody_escChars ((escChars s.data ++ '"' :: rest).length + 1)
          s.data rest (by simp only [List.length_append, List.length_cons]; omega)
        simp only [List.length_append, List.length_cons] at hsb
        simp +decide [strJsonC, parseValue, skipWs, List.cons_append, List.append_assoc,
          List.length_append, List.length_cons, hsb, stringMk_data]
      | num i =>
        cases i with
        | ofNat n =>
          obtain ⟨c, t, he, hd⟩ := natChars_head n
          obtain ⟨hws, hn, ht, hf2, hq, hlb, hob, _, _, _, _⟩ := isDigit_sep c hd
          have hpn := parseNumber_intChars (Int.ofNat n) rest hr
          rw [show intChars (Int.ofNat n) = natChars n from rfl, he] at hpn
          simp only [List.cons_append] at hpn
          simp [strJsonC, intChars, he, List.cons_append, parseValue,
            skipWs_cons_of_not_ws _ _ hws, hws, hn, ht, hf2, hq, hlb, hob, hpn]
        | negSucc m =>
          have hpn := parseNumber_intChars (Int.negSucc m) rest hr
          rw [show intChars (Int.negSucc m) = '-' :: natChars (m + 1) from rfl] at hpn
          simp only [List.cons_append] at hpn
          simp +decide [strJsonC, intChars, parseValue, skipWs, hpn]
      | arr xs =>
        cases xs with
        | nil => simp +decide [strJsonC, strElemsC, parseValue, skipWs]
        | cons x xs =>
          obtain ⟨c, t2, hh, hws, hrb⟩ := strElemsC_head x xs
          have hfe : needFuelElems (x :: xs) ≤ f := by
            simp only [needFuel] at hf; omega
          have helems := ihe x xs rest hfe
          rw [hh] at helems
          simp only [List.cons_append] at helems
          simp +decide [strJsonC, parseValue, skipWs, hh, List.cons_append, List.append_assoc,
            hws, hrb, helems]
      | obj fs =>
        cases fs with
        | nil => simp +decide [strJsonC, strMembersC, parseValue, skipWs]
        | cons m fs =>
          obtain ⟨k, v⟩ := m
          have hfm : needFuelMembers ((k, v) :: fs) ≤ f := by
            simp only [needFuel] at hf; omega
          have hmem := ihm k v fs rest hfm
          simp only [List.cons_append, List.append_assoc] at hmem
          cases fs with
          | nil =>
            simp only [strMembersC, List.cons_append, List.append_assoc] at hmem ⊢
            simp +decide [strJsonC, parseValue, skipWs, List.cons_append, List.append_assoc,
              hmem]
          | cons m2 fs2 =>
            simp only [strMembersC] at hmem ⊢
            simp only [List.cons_append, List.append_assoc] at hmem ⊢
            simp +decide [strJsonC, parseValue, skipWs, List.cons_append, List.append_assoc,
              hmem]
    · intro x xs rest hfe
      have hfx : needFuel x ≤ f ∧ needFuelElems xs ≤ f := by
        simp only [needFuelElems] at hfe
        exact Nat.max_le.mp (by omega)
      cases xs with
      | nil =>
        have hv := ihv x (']' :: rest) hfx.1 (by simp +decide [headNotDigit])
        simp +decide [strElemsC, parseElems, List.append_assoc, hv, skipWs]
      | cons y ys =>
        have hv := ihv x (',' :: (strElemsC (y :: ys) ++ ']' :: rest)) hfx.1
          (by simp +decide [headNotDigit])
        have he2 := ihe y ys rest hfx.2
        simp only [strElemsC, List.append_assoc, List.cons_append] at hv ⊢
        simp +decide [parseElems, hv, skipWs, he2]
    · intro k v fs rest hfm
      have hfx : needFuel v ≤ f ∧ needFuelMembers fs ≤ f := by
        simp only [needFuelMembers] at hfm
        exact Nat.max_le.mp (by omega)
      cases fs with
      | nil =>
        have hv := ihv v ('\x7d' :: rest) hfx.1 (by simp +decide [headNotDigit])
        have hsb := parseStringBody_escChars
          ((escChars k.data ++ '"' :: (':' :: (strJsonC v ++ '\x7d' :: rest))).length + 1)
          k.data (':' :: (strJsonC v ++ '\x7d' :: rest))
          (by simp only [List.length_append, List.length_cons]; omega)
        simp only [List.length_append, List.length_cons] at hsb
        simp only [strMembersC, List.append_assoc, List.cons_append] at hsb hv ⊢
        simp +decide [parseMembers, skipWs, List.length_append, List.length_cons,
          List.append_assoc, List.cons_append, hsb, hv, stringMk_data]
      | cons m2 fs2 =>
        obtain ⟨k2, v2⟩ := m2
        have hv := ihv v (',' :: (strMembersC ((k2, v2) :: fs2) ++ '\x7d' :: rest)) hfx.1
          (by simp +decide [headNotDigit])
        have hm2 := ihm k2 v2 fs2 rest hfx.2
        have hsb := parseStringBody_escChars
          ((escChars k.data ++ '"' :: (':' ::
            (strJsonC v ++ ',' :: (strMembersC ((k2, v2) :: fs2) ++ '\x7d' :: rest)))).length + 1)
          k.data
          (':' :: (strJsonC v ++ ',' :: (strMembersC ((k2, v2) :: fs2) ++ '\x7d' :: rest)))
          (by simp only [List.length_append, List.length_cons]; omega)
        simp only [List.length_append, List.length_cons] at hsb
        simp only [strMembersC, List.append_assoc, List.cons_append] at hsb hv hm2 ⊢
        simp +decide [parseMembers, skipWs, List.length_append, List.length_cons,
          List.append_assoc, List.cons_append, hsb, hv, hm2, stringMk_data]

/-- The fuel `parseValue` needs never exceeds the serialized length plus
one, so the fuel `Json.parse` supplies is always sufficient. -/
theorem needFuel_le_size (N : Nat) :
    (∀ v : Json, sizeOf v < N → needFuel v ≤ (strJsonC v).length + 1) ∧
    (∀ (x : Json) (xs : List Json), sizeOf (x :: xs) < N →
      needFuelElems (x :: xs) ≤ (strElemsC (x :: xs)).length + 2) ∧
    (∀ (k : String) (v : Json) (fs : List (String × Json)), sizeOf ((k, v) :: fs) < N →
      needFuelMembers ((k, v) :: fs) ≤ (strMembersC ((k, v) :: fs)).length + 2) := by
  induction N with
  | zero => exact ⟨fun v h => by omega, fun x xs h => by omega, fun k v fs h => by omega⟩
  | succ N ih =>
    obtain ⟨ihv, ihe, ihm⟩ := ih
    refine ⟨?_, ?_, ?_⟩
    · intro v hs
      cases v with
      | null => simp [needFuel, strJsonC]
      | bool b => simp [needFuel]
      | num i => simp [needFuel]
      | str s => simp [needFuel]
      | arr xs =>
        cases xs with
        | nil => simp [needFuel, needFuelElems, strJsonC, strElemsC]
        | cons x xs =>
          have hx : sizeOf (x :: xs) < N := by
            simp only [Json.arr.sizeOf_spec] at hs; omega
          have := ihe x xs hx
          simp only [needFuel, strJsonC, List.length_cons, List.length_append,
            List.length_singleton]
          omega
      | obj fs =>
        cases fs with
        | nil => simp [needFuel, needFuelMembers, strJsonC, strMembersC]
        | cons m fs =>
          obtain ⟨k, v⟩ := m
          have hx : sizeOf ((k, v) :: fs) < N := by
            simp only [Json.obj.sizeOf_spec] at hs; omega
          have := ihm k v fs hx
          simp only [needFuel, strJsonC, List.length_cons, List.length_append,
            List.length_singleton]
          omega
    · intro x xs hs
      have hx : sizeOf x < N := by
        simp only [List.cons.sizeOf_spec] at hs; omega
      have h1 := ihv x hx
      cases xs with
      | nil => simp only [needFuelElems, strElemsC]; omega
      | cons y ys =>
        have hy : sizeOf (y :: ys) < N := by
          simp only [List.cons.sizeOf_spec] at hs ⊢; omega
        have h2 := ihe y ys hy
        simp only [needFuelElems, strElemsC, List.length_append, List.length_cons] at h2 ⊢
        have hb : needFuel x ⊔ (1 + (needFuel y ⊔ needFuelElems ys)) ≤
            (strJsonC x).length + (strElemsC (y :: ys)).length + 2 :=
          Nat.max_le.mpr ⟨by omega, by omega⟩
        omega
    · intro k v fs hs
      have hx : sizeOf v < N := by
        simp only [List.cons.sizeOf_spec, Prod.mk.sizeOf_spec] at hs; omega
      have h1 := ihv v hx
      cases fs with
      | nil =>
        simp only [needFuelMembers, strMembersC, List.length_cons, List.length_append]
        omega
      | cons m2 fs2 =>
        obtain ⟨k2, v2⟩ := m2
        have hy : sizeOf ((k2, v2) :: fs2) < N := by
          simp only [List.cons.sizeOf_spec, Prod.mk.sizeOf_spec] at hs ⊢; omega
        have h2 := ihm k2 v2 fs2 hy
        simp only [needFuelMembers, strMembersC, List.length_cons, List.length_append] at h2 ⊢
        have hb : needFuel v ⊔ (1 + (needFuel v2 ⊔ needFuelMembers fs2)) ≤
            (escChars k.data).length + ((strJsonC v).length +
              ((strMembersC ((k2, v2) :: fs2)).length + 4)) :=
          Nat.max_le.mpr ⟨by omega, by omega⟩
        omega

/-- `JSON.parse` inverts `JSON.stringify` on the modelled fragment. -/
theorem Json.parse_stringify (v : Json) : Json.parse (Json.stringify v) = some v := by
  have hd : (Json.stringify v).data = strJsonC v := rfl
  unfold Json.parse
  rw [hd]
  have hfuel : needFuel v ≤ (strJsonC v).length + 1 :=
    (needFuel_le_size (sizeOf v + 1)).1 v (Nat.lt_succ_self _)
  have hrt := (parse_roundtrip ((strJsonC v).length + 1)).1 v [] hfuel trivial
  rw [List.append_nil] at hrt
  rw [hrt]
  simp [skipWs]

theorem storeLookup_nil (k : String) : storeLookup [] k = none := rfl

theorem storeLookup_cons (e : String × Row) (st : Store) (k : String) :
    storeLookup (e :: st) k = if e.1 = k then some e.2 else storeLookup st k := by
  by_cases h : e.1 = k
  · rw [if_pos h]
    unfold storeLookup
    simp [List.find?_cons, h]
  · rw [if_neg h]
    unfold storeLookup
    simp [List.find?_cons, h]

theorem storeLookup_erase (st : Store) (k' k : String) :
    storeLookup (storeErase st k') k = if k = k' then none else storeLookup st k := by
  induction st with
  | nil => by_cases h : k = k' <;> simp [storeErase, storeLookup_nil, h]
  | cons e st ih =>
    by_cases he : e.1 = k'
    · have : storeErase (e :: st) k' = storeErase st k' := by
        simp [storeErase, he]
      rw [this, ih, storeLookup_cons]
      by_cases hk : k = k'
      · simp [hk]
      · have : ¬ e.1 = k := fun hc => hk (by rw [← hc, he])
        simp [hk, this]
    · have : storeErase (e :: st) k' = e :: storeErase st k' := by
        simp [storeErase, he]
      rw [this, storeLookup_cons, storeLookup_cons, ih]
      by_cases hek : e.1 = k
      · have hkk : ¬ k = k' := fun hc => he (by rw [hek, hc])
        simp [hek, hkk]
      · simp [hek]

theorem storeLookup_sqlSet_self (st : Store) (now : Int) (k : String) (s : String) (exp : Int) :
    storeLookup (sqlSet st now k s exp) k =
      some { value := s, expires_at := exp, created_at := now, accessed_at := now,
             hit_count := 1 } := by
  simp [sqlSet, storeLookup_cons]

theorem storeLookup_sqlSet_other (st : Store) (now : Int) (k : String) (s : String) (exp : Int)
    (k' : String) (h : k' ≠ k) :
    storeLookup (sqlSet st now k s exp) k' = storeLookup st k' := by
  have hne : ¬ (k = k') := fun hc => h hc.symm
  simp only [sqlSet]
  rw [storeLookup_cons, if_neg hne, storeLookup_erase, if_neg h]

theorem storeLookup_updateAccess (st : Store) (now : Int) (k' k : String) :
    storeLookup (sqlUpdateAccess st now k') k =
      (storeLookup st k).map (fun r =>
        if k = k' then { r with accessed_at := now, hit_count := r.hit_count + 1 } else r) := by
  induction st with
  | nil => simp [sqlUpdateAccess, storeLookup_nil]
  | cons e st ih =>
    by_cases he : e.1 = k'
    · by_cases hek : e.1 = k
      · have hk : k = k' := by rw [← hek, he]
        simp [sqlUpdateAccess, storeLookup_cons, he, hek, hk]
      · have : sqlUpdateAccess (e :: st) now k' =
            (e.1, { e.2 with accessed_at := now, hit_count := e.2.hit_count + 1 })
              :: sqlUpdateAccess st now k' := by
          simp [sqlUpdateAccess, he]
        rw [this, storeLookup_cons, storeLookup_cons]
        simp only [hek, if_neg, ih]
        simp [hek]
    · have : sqlUpdateAccess (e :: st) now k' = e :: sqlUpdateAccess st now k' := by
        simp [sqlUpdateAccess, he]
      rw [this, storeLookup_cons, storeLookup_cons, ih]
      by_cases hek : e.1 = k
      · have hkk : ¬ k = k' := fun hc => he (by rw [hek, hc])
        simp [hek, hkk]
      · simp [hek]

theorem hexOfBytes_length (l : List Nat) : (hexOfBytes l).length = 2 * l.length := by
  induction l with
  | nil => rfl
  | cons b l ih => simp only [hexOfBytes, List.flatMap_cons] at ih ⊢; simp at ih ⊢; omega

theorem md5Digest_length (msg : List Nat) : (md5Digest msg).length = 16 := by
  simp [md5Digest, le4]

theorem md5Hex_length (s : String) : (md5Hex s).length = 32 := by
  show (hexOfBytes (md5Digest (utf8Bytes s))).length = 32
  rw [hexOfBytes_length, md5Digest_length]

theorem storeLookup_mem_keys (st : Store) (k : String) (r : Row)
    (h : storeLookup st k = some r) : k ∈ st.map Prod.fst := by
  induction st with
  | nil => simp [storeLookup_nil] at h
  | cons e st ih =>
    rw [storeLookup_cons] at h
    by_cases he : e.1 = k
    · simp [he]
    · rw [if_neg he] at h
      simp [ih h]

theorem storeLookup_filter_nodup (st : Store) (q : String × Row → Bool) (k : String) (r' : Row)
    (hnd : (st.map Prod.fst).Nodup)
    (h : storeLookup (st.filter q) k = some r') : storeLookup st k = some r' := by
  induction st with
  | nil => simp [List.filter, storeLookup_nil] at h
  | cons e st ih =>
    simp only [List.map_cons, List.nodup_cons] at hnd
    by_cases hq : q e
    · rw [List.filter_cons_of_pos hq] at h
      rw [storeLookup_cons] at h ⊢
      by_cases he : e.1 = k
      · rwa [if_pos he] at h ⊢
      · rw [if_neg he] at h ⊢
        exact ih hnd.2 h
    · rw [List.filter_cons_of_neg hq] at h
      have hst := ih hnd.2 h
      rw [storeLookup_cons]
      by_cases he : e.1 = k
      · exact absurd (he ▸ storeLookup_mem_keys st k r' hst) hnd.1
      · rwa [if_neg he]

theorem cleanup_partition (st : Store) (now : Int) :
    st.length = st.countP (fun kr => decide (kr.2.expires_at ≤ now)) +
      (st.filter (fun kr => decide (kr.2.expires_at > now))).length := by
  induction st with
  | nil => rfl
  | cons e st ih =>
    by_cases hc : e.2.expires_at > now
    · have h1 : ¬ (e.2.expires_at ≤ now) := by omega
      simp only [List.countP_cons, List.filter_cons, List.length_cons, hc, h1]
      simp at ih ⊢
      omega
    · have h1 : e.2.expires_at ≤ now := by omega
      simp only [List.countP_cons, List.filter_cons, List.length_cons, hc, h1]
      simp at ih ⊢
      omega

theorem cleanup_idem_store (st : Store) (now : Int) :
    (st.filter (fun kr => decide (kr.2.expires_at > now))).filter
        (fun kr => decide (kr.2.expires_at > now)) =
      st.filter (fun kr => decide (kr.2.expires_at > now)) := by
  rw [List.filter_filter]
  apply List.filter_congr
  intro a _
  simp

theorem cleanup_count_zero (st : Store) (now : Int) :
    (st.filter (fun kr => decide (kr.2.expires_at > now))).countP
        (fun kr => decide (kr.2.expires_at ≤ now)) = 0 := by
  rw [List.countP_eq_zero]
  intro a ha
  have := (List.mem_filter.mp ha).2
  simp at this ⊢
  omega

/-- C1 (amended): before a successful `init` and after `close` (both
states have `db = null`), `set`, `get`, `has`, `delete`, `clear`,
`stats` and `getAllEntries` all fail with the distinct
`Cache not initialized` error and leave the state unchanged; `cleanup`,
however, is guarded by `if (!this.db) return 0;` and returns the normal
result `0` instead of failing. `close` always leaves the engine in the
uninitialized state, and a freshly constructed engine starts there. -/
theorem c1_ops_notInitialized_except_cleanup (e : CacheEngine) (now : Int) (k : String)
    (v : Json) (t : Option Int) (lim : Nat) (h : e.db = none) :
    SQLiteCache.set e now k v t = (Except.error CacheErr.notInitialized, e) ∧
    SQLiteCache.get e now k = (Except.error CacheErr.notInitialized, e) ∧
    SQLiteCache.has e now k = (Except.error CacheErr.notInitialized, e) ∧
    SQLiteCache.delete e k = (Except.error CacheErr.notInitialized, e) ∧
    SQLiteCache.clear e = (Except.error CacheErr.notInitialized, e) ∧
    SQLiteCache.stats e now = (Except.error CacheErr.notInitialized, e) ∧
    SQLiteCache.getAllEntries e now lim = (Except.error CacheErr.notInitialized, e) ∧
    SQLiteCache.cleanup e now = (Except.ok 0, e) ∧
    (∀ e' : CacheEngine, (SQLiteCache.close e').db = none) ∧
    (CacheEngine.create e.defaultTTL).db = none := by
  refine ⟨?_, ?_, ?_, ?_, ?_, ?_, ?_, ?_, fun e' => rfl, rfl⟩ <;>
    simp [SQLiteCache.set, SQLiteCache.get, SQLiteCache.has, SQLiteCache.delete,
      SQLiteCache.clear, SQLiteCache.stats, SQLiteCache.getAllEntries, SQLiteCache.cleanup, h]

/-- Witness for C1 at a concrete closed engine. -/
theorem c1_ops_notInitialized_except_cleanup_witness :
    SQLiteCache.set (CacheEngine.create 3600) 0 "k" Json.null none =
        (Except.error CacheErr.notInitialized, CacheEngine.create 3600) ∧
    SQLiteCache.get (CacheEngine.create 3600) 0 "k" =
        (Except.error CacheErr.notInitialized, CacheEngine.create 3600) ∧
    SQLiteCache.has (CacheEngine.create 3600) 0 "k" =
        (Except.error CacheErr.notInitialized, CacheEngine.create 3600) ∧
    SQLiteCache.delete (CacheEngine.create 3600) "k" =
        (Except.error CacheErr.notInitialized, CacheEngine.create 3600) ∧
    SQLiteCache.clear (CacheEngine.create 3600) =
        (Except.error CacheErr.notInitialized, CacheEngine.create 3600) ∧
    SQLiteCache.stats (CacheEngine.create 3600) 0 =
        (Except.error CacheErr.notInitialized, CacheEngine.create 3600) ∧
    SQLiteCache.getAllEntries (CacheEngine.create 3600) 0 50 =
        (Except.error CacheErr.notInitialized, CacheEngine.create 3600) ∧
    SQLiteCache.cleanup (CacheEngine.create 3600) 0 = (Except.ok 0, CacheEngine.create 3600) ∧
    (∀ e' : CacheEngine, (SQLiteCache.close e').db = none) ∧
    (CacheEngine.create (CacheEngine.create 3600).defaultTTL).db = none :=
  c1_ops_notInitialized_except_cleanup (CacheEngine.create 3600) 0 "k" Json.null none 50 rfl

/-- Counterexample for C1 as stated: on an uninitialized engine,
`cleanup` returns the normal result `0` instead of a `NotInitialized`
failure. -/
theorem c1_cleanup_counterexample :
    SQLiteCache.cleanup (CacheEngine.create 3600) 5 = (Except.ok 0, CacheEngine.create 3600) ∧
    (SQLiteCache.cleanup (CacheEngine.create 3600) 5).1 ≠
      Except.error CacheErr.notInitialized := by
  refine ⟨rfl, fun hc => ?_⟩
  exact Except.noConfusion hc

/-- C3 (amended): `generateKey` is a pure function of the derived
string — deterministic within and across processes, producing a
fixed-length 32-character hex key — but it does not canonicalize
property order (see the counterexample). -/
theorem c3_generateKey_deterministic_fixed_length (input : Json) :
    (SQLiteCache.generateKey input).length = 32 ∧
    (∀ w : Json, toKeySource input = toKeySource w →
      SQLiteCache.generateKey input = SQLiteCache.generateKey w) := by
  refine ⟨md5Hex_length _, fun w hw => ?_⟩
  unfold SQLiteCache.generateKey
  rw [hw]

/-- Witness for C3: the null value and the string `"null"` hash to the
same fixed-length key because they serialize identically. -/
theorem c3_generateKey_deterministic_fixed_length_witness :
    (SQLiteCache.generateKey Json.null).length = 32 ∧
    SQLiteCache.generateKey Json.null = SQLiteCache.generateKey (Json.str "null") := by
  have h := c3_generateKey_deterministic_fixed_length Json.null
  exact ⟨h.1, h.2 (Json.str "null") rfl⟩

/-- Counterexample for C3 as stated: two structurally equivalent
objects that differ only in property order produce different keys,
because `JSON.stringify` preserves insertion order. -/
theorem c3_generateKey_order_counterexample :
    structEquiv (Json.obj [("a", Json.num 1), ("b", Json.num 2)])
        (Json.obj [("b", Json.num 2), ("a", Json.num 1)]) ∧
    SQLiteCache.generateKey (Json.obj [("a", Json.num 1), ("b", Json.num 2)]) ≠
      SQLiteCache.generateKey (Json.obj [("b", Json.num 2), ("a", Json.num 1)]) := by
  constructor
  · show jsonCanon _ = jsonCanon _
    simp +decide [jsonCanon, jsonCanonFields, jsonCanonList, sortFields, insertField]
  · decide

/-- C4 (amended): on an initialized engine, `set` stores the entry with
`expires_at = now + ttl` when a *non-zero* `ttl` is supplied, and
`expires_at = now + defaultTTL` when `ttl` is omitted **or equals 0**,
because `ttl || this.defaultTTL` treats the falsy `0` as absent. -/
theorem c4_set_expiry (e : CacheEngine) (st : Store) (now : Int) (k : String) (v : Json)
    (t : Option Int) (h : e.db = some st) :
    ∃ st', (SQLiteCache.set e now k v t).2.db = some st' ∧
      ∃ row, storeLookup st' k = some row ∧
        (∀ x, t = some x → x ≠ 0 → row.expires_at = now + x) ∧
        (t = some 0 ∨ t = none → row.expires_at = now + e.defaultTTL) := by
  have hdb : (SQLiteCache.set e now k v t).2.db =
      some (sqlSet st now k (Json.stringify v)
        (now + (match t with
                | some x => if x = 0 then e.defaultTTL else x
                | none => e.defaultTTL))) := by
    simp only [SQLiteCache.set, h]
  refine ⟨_, hdb, _, storeLookup_sqlSet_self st now k (Json.stringify v) _, ?_, ?_⟩
  · intro x hx hx0
    subst hx
    simp [hx0]
  · rintro (hc | hc) <;> subst hc <;> simp

/-- Witness for C4: a `set` with `ttl = 0` on an initialized engine
expires at `now + defaultTTL`. -/
theorem c4_set_expiry_witness :
    ∃ st', (SQLiteCache.set (SQLiteCache.init (CacheEngine.create 3600) []) 1000 "k"
        (Json.bool true) (some 0)).2.db = some st' ∧
      ∃ row, storeLookup st' "k" = some row ∧
        (∀ x, (some 0 : Option Int) = some x → x ≠ 0 → row.expires_at = 1000 + x) ∧
        ((some 0 : Option Int) = some 0 ∨ (some 0 : Option Int) = none →
          row.expires_at = 1000 + (SQLiteCache.init (CacheEngine.create 3600) []).defaultTTL) :=
  c4_set_expiry (SQLiteCache.init (CacheEngine.create 3600) []) [] 1000 "k"
    (Json.bool true) (some 0) rfl

/-- Counterexample for C4 as stated: with `defaultTTL = 3600`, a `set`
at time 1000 with the supplied `ttl = 0` stores `expires_at = 4600`,
not `1000 + 0`. -/
theorem c4_ttl_zero_counterexample :
    (SQLiteCache.set (SQLiteCache.init (CacheEngine.create 3600) []) 1000 "k"
        (Json.bool true) (some 0)).2.db =
      some [("k", { value := "true", expires_at := 4600, created_at := 1000,
                    accessed_at := 1000, hit_count := 1 })] ∧
    (4600 : Int) ≠ 1000 + 0 := by
  exact ⟨rfl, by decide⟩

/-- C5 (amended): because the prepared `set` statement uses
`INSERT OR REPLACE` and does not mention `created_at`, SQLite deletes
any conflicting row and re-inserts it with the column DEFAULT, so
`created_at` equals the time of the *latest* `set` of that key — an
overwrite resets it rather than preserving the original insertion
time. `get`'s access-statistics update leaves `created_at` (of every
key) unchanged. -/
theorem c5_created_at_reset (e : CacheEngine) (st : Store) (now : Int) (k : String) (v : Json)
    (t : Option Int) (h : e.db = some st) :
    (∃ st', (SQLiteCache.set e now k v t).2.db = some st' ∧
      ∃ row, storeLookup st' k = some row ∧ row.created_at = now) ∧
    (∀ kq k2 st2 r r', (SQLiteCache.get e now kq).2.db = some st2 →
      storeLookup st k2 = some r → storeLookup st2 k2 = some r' →
      r'.created_at = r.created_at) := by
  constructor
  · have hdb : (SQLiteCache.set e now k v t).2.db =
        some (sqlSet st now k (Json.stringify v)
          (now + (match t with
                  | some x => if x = 0 then e.defaultTTL else x
                  | none => e.defaultTTL))) := by
      simp only [SQLiteCache.set, h]
    exact ⟨_, hdb, _, storeLookup_sqlSet_self st now k (Json.stringify v) _, rfl⟩
  · intro kq k2 st2 r r' hdb hr hr'
    simp only [SQLiteCache.get, h] at hdb
    rcases hq : sqlGet st now kq with _ | row <;> rw [hq] at hdb
    · simp [h] at hdb
      subst hdb
      rw [hr] at hr'
      rw [← Option.some.inj hr']
    · dsimp only at hdb
      rcases hp : Json.parse row.value with _ | j <;> rw [hp] at hdb <;>
        · simp at hdb
          subst hdb
          rw [storeLookup_updateAccess, hr] at hr'
          simp only [Option.map_some'] at hr'
          have hfr := Option.some.inj hr'
          by_cases hk : k2 = kq
          · rw [if_pos hk] at hfr
            rw [← hfr]
          · rw [if_neg hk] at hfr
            rw [← hfr]

/-- Witness for C5: overwriting a key stores `created_at` equal to the
overwrite time, and a `get` changes no `created_at`. -/
theorem c5_created_at_reset_witness :
    (∃ st', (SQLiteCache.set (SQLiteCache.init (CacheEngine.create 3600) []) 100 "k"
        (Json.num 1) (some 50)).2.db = some st' ∧
      ∃ row, storeLookup st' "k" = some row ∧ row.created_at = 100) ∧
    (∀ kq k2 st2 r r',
      (SQLiteCache.get (SQLiteCache.init (CacheEngine.create 3600) []) 100 kq).2.db = some st2 →
      storeLookup [] k2 = some r → storeLookup st2 k2 = some r' →
      r'.created_at = r.created_at) :=
  c5_created_at_reset (SQLiteCache.init (CacheEngine.create 3600) []) [] 100 "k"
    (Json.num 1) (some 50) rfl

/-- Counterexample for C5 as stated: setting key `k` at time 100 and
overwriting it at time 200 leaves `created_at = 200`, not the original
insertion time 100. -/
theorem c5_overwrite_counterexample :
    (SQLiteCache.set
        (SQLiteCache.set (SQLiteCache.init (CacheEngine.create 3600) []) 100 "k"
          (Json.num 1) (some 50)).2
        200 "k" (Json.num 2) (some 50)).2.db =
      some [("k", { value := "2", expires_at := 250, created_at := 200,
                    accessed_at := 200, hit_count := 1 })] ∧
    (200 : Int) ≠ 100 := by
  exact ⟨rfl, by decide⟩

/-- C6 (confirmed): on an initialized engine, for every key, value and
`ttl > 0`, a `set` followed immediately by a `get` of the same key
returns a value deep-equal (here: equal in the `Json` model) to the
stored value. -/
theorem c6_set_then_get (e : CacheEngine) (st : Store) (now : Int) (k : String) (v : Json)
    (t : Int) (h : e.db = some st) (ht : 0 < t) :
    (SQLiteCache.get ((SQLiteCache.set e now k v (some t)).2) now k).1 = Except.ok v := by
  have ht0 : t ≠ 0 := by omega
  have hdb : (SQLiteCache.set e now k v (some t)).2.db =
      some (sqlSet st now k (Json.stringify v) (now + t)) := by
    simp [SQLiteCache.set, h, ht0]
  simp only [SQLiteCache.get, hdb]
  have hget : sqlGet (sqlSet st now k (Json.stringify v) (now + t)) now k =
      some { value := Json.stringify v, expires_at := now + t, created_at := now,
             accessed_at := now, hit_count := 1 } := by
    simp only [sqlGet, storeLookup_sqlSet_self]
    rw [if_pos (by omega)]
  rw [hget]
  simp [Json.parse_stringify]

/-- Witness for C6 at a concrete engine, key, value and ttl. -/
theorem c6_set_then_get_witness :
    (SQLiteCache.get ((SQLiteCache.set (SQLiteCache.init (CacheEngine.create 3600) []) 0 "k"
        (Json.obj [("a", Json.num 1)]) (some 60)).2) 0 "k").1 =
      Except.ok (Json.obj [("a", Json.num 1)]) :=
  c6_set_then_get (SQLiteCache.init (CacheEngine.create 3600) []) [] 0 "k"
    (Json.obj [("a", Json.num 1)]) 60 rfl (by decide)

/-- C8 (confirmed): on an initialized engine, `cleanup` deletes exactly
the rows with `expires_at <= now` (the surviving store is the
complementary filter, and deleted plus survivors account for every
row), returns the number of deleted rows, and an immediately repeated
`cleanup` at the same time deletes nothing and returns `0`. -/
theorem c8_cleanup_exact (e : CacheEngine) (st : Store) (now : Int) (h : e.db = some st) :
    SQLiteCache.cleanup e now =
      (Except.ok (st.countP (fun kr => decide (kr.2.expires_at ≤ now))),
       { e with db := some (st.filter (fun kr => decide (kr.2.expires_at > now))) }) ∧
    st.length = st.countP (fun kr => decide (kr.2.expires_at ≤ now)) +
      (st.filter (fun kr => decide (kr.2.expires_at > now))).length ∧
    SQLiteCache.cleanup
        { e with db := some (st.filter (fun kr => decide (kr.2.expires_at > now))) } now =
      (Except.ok 0,
       { e with db := some (st.filter (fun kr => decide (kr.2.expires_at > now))) }) := by
  refine ⟨by simp [SQLiteCache.cleanup, h, sqlCleanupCount, sqlCleanup], cleanup_partition st now, ?_⟩
  simp only [SQLiteCache.cleanup, sqlCleanupCount, sqlCleanup]
  rw [cleanup_count_zero, cleanup_idem_store]

/-- Witness for C8 at a concrete store with one expired and one active
row. -/
theorem c8_cleanup_exact_witness :
    SQLiteCache.cleanup
        ⟨3600, some [("a", ⟨"1", 5, 0, 0, 1⟩), ("b", ⟨"2", 50, 0, 0, 1⟩)]⟩ 10 =
      (Except.ok 1, ⟨3600, some [("b", ⟨"2", 50, 0, 0, 1⟩)]⟩) ∧
    (2 : Nat) = 1 + 1 ∧
    SQLiteCache.cleanup ⟨3600, some [("b", ⟨"2", 50, 0, 0, 1⟩)]⟩ 10 =
      (Except.ok 0, ⟨3600, some [("b", ⟨"2", 50, 0, 0, 1⟩)]⟩) := by
  have h := c8_cleanup_exact
    ⟨3600, some [("a", ⟨"1", 5, 0, 0, 1⟩), ("b", ⟨"2", 50, 0, 0, 1⟩)]⟩
    [("a", ⟨"1", 5, 0, 0, 1⟩), ("b", ⟨"2", 50, 0, 0, 1⟩)] 10 rfl
  exact ⟨h.1, h.2.1, h.2.2⟩

/-- C9 (confirmed): the `stats` snapshot counts every stored row in
exactly one of the `active` / `expired` buckets (`total = active +
expired`), and when `total > 0` its `hit_rate` string renders a
hundredths value within half a hundredth of the exact ratio
`total_hits / total` (the `toFixed(2)` rounding); when `total = 0` it
is the literal `'0.00'`. -/
theorem c9_stats_partition_hit_rate (e : CacheEngine) (st : Store) (now : Int)
    (h : e.db = some st) :
    ∃ cs, SQLiteCache.stats e now = (Except.ok cs, e) ∧
      cs.total = cs.active + cs.expired ∧
      (0 < cs.total →
        ∃ hnd, cs.hit_rate = fmtHundredths hnd ∧
          2 * (hnd * cs.total) ≤ 2 * (100 * cs.total_hits) + cs.total ∧
          2 * (100 * cs.total_hits) < 2 * ((hnd + 1) * cs.total)) ∧
      (cs.total = 0 → cs.hit_rate = "0.00") := by
  refine ⟨{ total := st.length,
            active := st.countP (fun kr => decide (kr.2.expires_at > now)),
            expired := st.countP (fun kr => decide (kr.2.expires_at ≤ now)),
            avg_size := if st.length = 0 then 0
              else jsRound ((st.map (fun kr => kr.2.value.length)).sum) st.length,
            total_hits := (st.map (fun kr => kr.2.hit_count)).sum,
            hit_rate := if st.length > 0 then
                fmtHundredths (hundredths ((st.map (fun kr => kr.2.hit_count)).sum) st.length)
              else "0.00" },
    by simp only [SQLiteCache.stats, h], ?_, ?_, ?_⟩
  · have hp := cleanup_partition st now
    have hf := List.countP_eq_length_filter (fun kr => decide (kr.2.expires_at > now)) st
    simp only
    omega
  · intro hpos
    simp only at hpos ⊢
    rw [if_pos hpos]
    refine ⟨hundredths ((st.map (fun kr => kr.2.hit_count)).sum) st.length, rfl, ?_, ?_⟩
    · have hd := Nat.div_mul_le_self
        (200 * (st.map (fun kr => kr.2.hit_count)).sum + st.length) (2 * st.length)
      unfold hundredths
      set D := (200 * (st.map (fun kr => kr.2.hit_count)).sum + st.length) / (2 * st.length)
        with hD
      nlinarith [hd]
    · have hlt : (200 * (st.map (fun kr => kr.2.hit_count)).sum + st.length) % (2 * st.length)
          < 2 * st.length := Nat.mod_lt _ (by omega)
      have hdm := Nat.div_add_mod
        (200 * (st.map (fun kr => kr.2.hit_count)).sum + st.length) (2 * st.length)
      unfold hundredths
      set D := (200 * (st.map (fun kr => kr.2.hit_count)).sum + st.length) / (2 * st.length)
        with hD
      set M := (200 * (st.map (fun kr => kr.2.hit_count)).sum + st.length) % (2 * st.length)
        with hM
      nlinarith [hdm, hlt]
  · intro hz
    simp only at hz ⊢
    rw [if_neg (by omega)]

/-- C10 (confirmed): a stored blob `"null"` on an active entry makes
`get` return `null` — exactly what `get` returns for a missing key, so
the caller cannot tell a cached null from an absent entry — and the
middleware hit test `if (cached)` treats every falsy cached value as a
miss, invoking the wrapped unit of work despite the active entry, and
never marking the response as a hit. -/
theorem c10_falsy_cached_is_miss (e : CacheEngine) (st : Store) (now : Int) (k : String) :
    (∀ row, e.db = some st → storeLookup st k = some row → row.expires_at > now →
      row.value = "null" → (SQLiteCache.get e now k).1 = Except.ok Json.null) ∧
    (e.db = some st → storeLookup st k = none →
      SQLiteCache.get e now k = (Except.ok Json.null, e)) ∧
    (∀ (opts : MWOptions) (req : Request) (hs : Nat) (hd : Json) (cached : Json)
        (e1 : CacheEngine),
      opts.condition req = true → req.method = "GET" →
      opts.keyGenerator req = Except.ok k →
      SQLiteCache.get e now k = (Except.ok cached, e1) → jsTruthy cached = false →
      (runMiddleware e now opts req hs hd).handlerInvoked = true ∧
      (runMiddleware e now opts req hs hd).cacheHitHeader ≠ some "true") := by
  refine ⟨?_, ?_, ?_⟩
  · intro row hdb hl hexp hval
    have hget : sqlGet st now k = some row := by
      simp [sqlGet, hl, hexp]
    simp only [SQLiteCache.get, hdb, hget]
    rw [hval]
    have hn : Json.parse "null" = some Json.null := rfl
    rw [hn]
  · intro hdb hl
    have hget : sqlGet st now k = none := by
      simp [sqlGet, hl]
    simp only [SQLiteCache.get, hdb, hget]
  · intro opts req hs hd cached e1 hcond hmeth hk hget htruthy
    have hnc : ¬ (opts.condition req = false ∨ req.method ≠ "GET") := by
      simp [hcond, hmeth]
    by_cases hstore : opts.skipSuccessful = false ∧ 200 ≤ hs ∧ hs < 300
    · rcases hset : SQLiteCache.set e1 now k hd (some opts.ttl) with ⟨sres, e2⟩
      cases sres with
      | error err =>
        have hout : runMiddleware e now opts req hs hd =
            { handlerInvoked := true, thrown := none, responseData := some hd,
              cacheHitHeader := none, cacheKeyHeader := none, engine := e2 } := by
          simp only [runMiddleware, if_neg hnc, hk, hget, htruthy, Bool.false_eq_true,
            if_false, if_pos hstore, hset]
        rw [hout]
        exact ⟨rfl, by simp⟩
      | ok b =>
        have hout : runMiddleware e now opts req hs hd =
            { handlerInvoked := true, thrown := none, responseData := some hd,
              cacheHitHeader := some "false", cacheKeyHeader := some k, engine := e2 } := by
          simp only [runMiddleware, if_neg hnc, hk, hget, htruthy, Bool.false_eq_true,
            if_false, if_pos hstore, hset]
        rw [hout]
        refine ⟨rfl, ?_⟩
        simp only
        intro hc
        exact absurd (Option.some.inj hc) (by decide)
    · have hout : runMiddleware e now opts req hs hd =
          { handlerInvoked := true, thrown := none, responseData := some hd,
            cacheHitHeader := none, cacheKeyHeader := none, engine := e1 } := by
        simp only [runMiddleware, if_neg hnc, hk, hget, htruthy, Bool.false_eq_true,
          if_false, if_neg hstore]
      rw [hout]
      exact ⟨rfl, by simp⟩

/-- Witness for C10 at a concrete engine caching `null` under an
active key. -/
theorem c10_falsy_cached_is_miss_witness :
    (SQLiteCache.get ⟨3600, some [("k", ⟨"null", 100, 0, 0, 1⟩)]⟩ 0 "k").1 =
      Except.ok Json.null ∧
    (runMiddleware ⟨3600, some [("k", ⟨"null", 100, 0, 0, 1⟩)]⟩ 0 (constKeyOptions "k")
        ⟨"GET", "/u"⟩ 200 (Json.num 7)).handlerInvoked = true := by
  have h := c10_falsy_cached_is_miss ⟨3600, some [("k", ⟨"null", 100, 0, 0, 1⟩)]⟩
    [("k", ⟨"null", 100, 0, 0, 1⟩)] 0 "k"
  refine ⟨h.1 ⟨"null", 100, 0, 0, 1⟩ rfl rfl (by decide) rfl, ?_⟩
  exact (h.2.2 (constKeyOptions "k")
    ⟨"GET", "/u"⟩ 200 (Json.num 7) Json.null
    ⟨3600, some [("k", ⟨"null", 100, 0, 0, 2⟩)]⟩ rfl rfl rfl rfl rfl).1

/-- C2 (amended): once the cache key has been derived successfully, the
middleware never propagates a caching failure as the request's error:
a lookup failure is caught and the unit of work runs; a store failure
is swallowed after the handler has produced its result; the unit of
work is skipped only for a successful truthy cache hit, and whenever
the handler runs its result is forwarded unchanged. A failure *inside
the key generator itself*, however, is raised outside the `try` block
and does propagate (see the counterexample). -/
theorem c2_best_effort_after_key (cache : CacheEngine) (now : Int) (opts : MWOptions)
    (req : Request) (hs : Nat) (hd : Json) (k : String)
    (hk : opts.keyGenerator req = Except.ok k) :
    (runMiddleware cache now opts req hs hd).thrown = none ∧
    ((runMiddleware cache now opts req hs hd).handlerInvoked = false →
      ∃ v e1, SQLiteCache.get cache now k = (Except.ok v, e1) ∧ jsTruthy v = true ∧
        (runMiddleware cache now opts req hs hd).responseData = some v) ∧
    ((runMiddleware cache now opts req hs hd).handlerInvoked = true →
      (runMiddleware cache now opts req hs hd).responseData = some hd) := by
  by_cases hcond : opts.condition req = false ∨ req.method ≠ "GET"
  · have hout : runMiddleware cache now opts req hs hd =
        { handlerInvoked := true, thrown := none, responseData := some hd,
          cacheHitHeader := none, cacheKeyHeader := none, engine := cache } := by
      simp only [runMiddleware, if_pos hcond]
    rw [hout]
    exact ⟨rfl, fun hh => Bool.noConfusion hh, fun _ => rfl⟩
  · rcases hget : SQLiteCache.get cache now k with ⟨res, e1⟩
    cases res with
    | error err =>
      have hout : runMiddleware cache now opts req hs hd =
          { handlerInvoked := true, thrown := none, responseData := some hd,
            cacheHitHeader := none, cacheKeyHeader := none, engine := e1 } := by
        simp only [runMiddleware, if_neg hcond, hk, hget]
      rw [hout]
      exact ⟨rfl, fun hh => Bool.noConfusion hh, fun _ => rfl⟩
    | ok cached =>
      by_cases htr : jsTruthy cached = true
      · have hout : runMiddleware cache now opts req hs hd =
            { handlerInvoked := false, thrown := none, responseData := some cached,
              cacheHitHeader := some "true", cacheKeyHeader := some k, engine := e1 } := by
          simp only [runMiddleware, if_neg hcond, hk, hget, htr, if_true]
        rw [hout]
        exact ⟨rfl, fun _ => ⟨cached, e1, rfl, htr, rfl⟩, fun hh => Bool.noConfusion hh⟩
      · simp only [Bool.not_eq_true] at htr
        by_cases hstore : opts.skipSuccessful = false ∧ 200 ≤ hs ∧ hs < 300
        · rcases hset : SQLiteCache.set e1 now k hd (some opts.ttl) with ⟨sres, e2⟩
          cases sres with
          | error err =>
            have hout : runMiddleware cache now opts req hs hd =
                { handlerInvoked := true, thrown := none, responseData := some hd,
                  cacheHitHeader := none, cacheKeyHeader := none, engine := e2 } := by
              simp only [runMiddleware, if_neg hcond, hk, hget, htr, Bool.false_eq_true,
                if_false, if_pos hstore, hset]
            rw [hout]
            exact ⟨rfl, fun hh => Bool.noConfusion hh, fun _ => rfl⟩
          | ok b =>
            have hout : runMiddleware cache now opts req hs hd =
                { handlerInvoked := true, thrown := none, responseData := some hd,
                  cacheHitHeader := some "false", cacheKeyHeader := some k,
                  engine := e2 } := by
              simp only [runMiddleware, if_neg hcond, hk, hget, htr, Bool.false_eq_true,
                if_false, if_pos hstore, hset]
            rw [hout]
            exact ⟨rfl, fun hh => Bool.noConfusion hh, fun _ => rfl⟩
        · have hout : runMiddleware cache now opts req hs hd =
              { handlerInvoked := true, thrown := none, responseData := some hd,
                cacheHitHeader := none, cacheKeyHeader := none, engine := e1 } := by
            simp only [runMiddleware, if_neg hcond, hk, hget, htr, Bool.false_eq_true,
              if_false, if_neg hstore]
          rw [hout]
          exact ⟨rfl, fun hh => Bool.noConfusion hh, fun _ => rfl⟩

/-- Witness for C2: with the default key generator on an initialized
empty cache, no error is thrown, the handler runs, and its result is
forwarded. -/
theorem c2_best_effort_after_key_witness :
    (runMiddleware (SQLiteCache.init (CacheEngine.create 3600) []) 0 defaultMWOptions
        ⟨"GET", "/u"⟩ 200 (Json.num 7)).thrown = none ∧
    ((runMiddleware (SQLiteCache.init (CacheEngine.create 3600) []) 0 defaultMWOptions
        ⟨"GET", "/u"⟩ 200 (Json.num 7)).handlerInvoked = false →
      ∃ v e1, SQLiteCache.get (SQLiteCache.init (CacheEngine.create 3600) []) 0 "GET:/u" =
          (Except.ok v, e1) ∧ jsTruthy v = true ∧
        (runMiddleware (SQLiteCache.init (CacheEngine.create 3600) []) 0 defaultMWOptions
          ⟨"GET", "/u"⟩ 200 (Json.num 7)).responseData = some v) ∧
    ((runMiddleware (SQLiteCache.init (CacheEngine.create 3600) []) 0 defaultMWOptions
        ⟨"GET", "/u"⟩ 200 (Json.num 7)).handlerInvoked = true →
      (runMiddleware (SQLiteCache.init (CacheEngine.create 3600) []) 0 defaultMWOptions
        ⟨"GET", "/u"⟩ 200 (Json.num 7)).responseData = some (Json.num 7)) :=
  c2_best_effort_after_key (SQLiteCache.init (CacheEngine.create 3600) []) 0 defaultMWOptions
    ⟨"GET", "/u"⟩ 200 (Json.num 7) "GET:/u" rfl

/-- Counterexample for C2 as stated: a key generator that throws makes
the middleware propagate the error and the wrapped unit of work never
executes. -/
theorem c2_keygen_throw_counterexample :
    (runMiddleware (SQLiteCache.init (CacheEngine.create 3600) []) 0 throwingKeyOptions
        ⟨"GET", "/u"⟩ 200 (Json.num 1)).handlerInvoked = false ∧
    (runMiddleware (SQLiteCache.init (CacheEngine.create 3600) []) 0 throwingKeyOptions
        ⟨"GET", "/u"⟩ 200 (Json.num 1)).thrown = some "boom" := by
  exact ⟨rfl, rfl⟩

/-- C7 (confirmed): `hit_count` is 1 immediately after any `set` of a
key (fresh insert or overwrite, since `INSERT OR REPLACE` writes the
literal 1), a successful `get` increments it by exactly 1 (the
`updateAccess` statement), and no operation other than a `set` of that
same key ever decreases it — on a store with unique keys (the PRIMARY
KEY invariant), every operation leaves each surviving row's `hit_count`
at least as large as before. -/
theorem c7_hit_count_accounting :
    (∀ (e : CacheEngine) (st : Store) (now : Int) (k : String) (v : Json) (t : Option Int),
      e.db = some st → ∃ st', (SQLiteCache.set e now k v t).2.db = some st' ∧
        ∃ row, storeLookup st' k = some row ∧ row.hit_count = 1) ∧
    (∀ (e : CacheEngine) (st : Store) (now : Int) (k : String) (row : Row) (j : Json),
      e.db = some st → storeLookup st k = some row → row.expires_at > now →
      Json.parse row.value = some j →
      (SQLiteCache.get e now k).1 = Except.ok j ∧
      ∃ st', (SQLiteCache.get e now k).2.db = some st' ∧
        ∃ row', storeLookup st' k = some row' ∧ row'.hit_count = row.hit_count + 1) ∧
    (∀ (e : CacheEngine) (st st' : Store) (now : Int) (op : EngineOp) (k : String) (r r' : Row),
      e.db = some st → (st.map Prod.fst).Nodup →
      (applyOp e now op).db = some st' →
      storeLookup st k = some r → storeLookup st' k = some r' →
      (∀ (v : Json) (t : Option Int), op ≠ EngineOp.opSet k v t) →
      r.hit_count ≤ r'.hit_count) := by
  refine ⟨?_, ?_, ?_⟩
  · intro e st now k v t h
    have hdb : (SQLiteCache.set e now k v t).2.db =
        some (sqlSet st now k (Json.stringify v)
          (now + (match t with
                  | some x => if x = 0 then e.defaultTTL else x
                  | none => e.defaultTTL))) := by
      simp only [SQLiteCache.set, h]
    exact ⟨_, hdb, _, storeLookup_sqlSet_self st now k (Json.stringify v) _, rfl⟩
  · intro e st now k row j h hl hexp hp
    have hget : sqlGet st now k = some row := by
      simp [sqlGet, hl, hexp]
    constructor
    · simp only [SQLiteCache.get, h, hget, hp]
    · refine ⟨sqlUpdateAccess st now k, by simp only [SQLiteCache.get, h, hget, hp], ?_⟩
      refine ⟨{ row with accessed_at := now, hit_count := row.hit_count + 1 }, ?_, rfl⟩
      rw [storeLookup_updateAccess, hl]
      simp
  · intro e st st' now op k r r' h hnd hdb hr hr' hop
    cases op with
    | opSet k2 v2 t2 =>
      have hne : k2 ≠ k := by
        intro hc
        subst hc
        exact hop v2 t2 rfl
      simp only [applyOp, SQLiteCache.set, h] at hdb
      simp at hdb
      subst hdb
      rw [storeLookup_sqlSet_other st now k2 _ _ k (fun hc => hne hc.symm), hr] at hr'
      rw [← Option.some.inj hr']
    | opGet k2 =>
      simp only [applyOp, SQLiteCache.get, h] at hdb
      rcases hq : sqlGet st now k2 with _ | row <;> rw [hq] at hdb
      · simp [h] at hdb
        subst hdb
        rw [hr] at hr'
        rw [← Option.some.inj hr']
      · dsimp only at hdb
        rcases hpp : Json.parse row.value with _ | j <;> rw [hpp] at hdb <;>
          · simp at hdb
            subst hdb
            rw [storeLookup_updateAccess, hr] at hr'
            simp only [Option.map_some'] at hr'
            have hfr := Option.some.inj hr'
            by_cases hk : k = k2
            · rw [if_pos hk] at hfr
              rw [← hfr]
              simp
            · rw [if_neg hk] at hfr
              rw [← hfr]
    | opHas k2 =>
      simp only [applyOp, SQLiteCache.has, h] at hdb
      simp [h] at hdb
      subst hdb
      rw [hr] at hr'
      rw [← Option.some.inj hr']
    | opDelete k2 =>
      simp only [applyOp, SQLiteCache.delete, h] at hdb
      simp at hdb
      subst hdb
      rw [storeLookup_erase] at hr'
      by_cases hk : k = k2
      · rw [if_pos hk] at hr'
        exact Option.noConfusion hr'
      · rw [if_neg hk] at hr'
        rw [hr] at hr'
        rw [← Option.some.inj hr']
    | opClear =>
      simp only [applyOp, SQLiteCache.clear, h] at hdb
      simp at hdb
      subst hdb
      simp [storeLookup_nil] at hr'
    | opCleanup =>
      simp only [applyOp, SQLiteCache.cleanup, h] at hdb
      simp at hdb
      subst hdb
      have := storeLookup_filter_nodup st _ k r' hnd hr'
      rw [hr] at this
      rw [← Option.some.inj this]
    | opStats =>
      simp only [applyOp, SQLiteCache.stats, h] at hdb
      simp [h] at hdb
      subst hdb
      rw [hr] at hr'
      rw [← Option.some.inj hr']
    | opGetAll lim =>
      simp only [applyOp, SQLiteCache.getAllEntries, h] at hdb
      rcases hm : ((sortByAccess (st.filter (fun kr => kr.2.expires_at > now))).take lim).mapM
          (fun kr => (Json.parse kr.2.value).map (fun v =>
            ({ key := kr.1, value := v, expires_at := kr.2.expires_at * 1000,
               created_at := kr.2.created_at * 1000, accessed_at := kr.2.accessed_at * 1000,
               hit_count := kr.2.hit_count } : EntrySnapshot))) with _ | entries <;>
        rw [hm] at hdb <;>
        · simp [h] at hdb
          subst hdb
          rw [hr] at hr'
          rw [← Option.some.inj hr']

/-- Witness for C7: a fresh `set` stores `hit_count = 1`; a successful
`get` on a row with `hit_count = 3` returns the value and bumps it to
4; and a `get` operation (as an operation other than `set` of the key)
does not decrease the count. -/
theorem c7_hit_count_accounting_witness :
    (∃ st', (SQLiteCache.set ⟨3600, some []⟩ 0 "k" (Json.num 1) (some 60)).2.db = some st' ∧
      ∃ row, storeLookup st' "k" = some row ∧ row.hit_count = 1) ∧
    ((SQLiteCache.get ⟨3600, some [("k", ⟨"1", 100, 0, 0, 3⟩)]⟩ 0 "k").1 =
        Except.ok (Json.num 1) ∧
      ∃ st', (SQLiteCache.get ⟨3600, some [("k", ⟨"1", 100, 0, 0, 3⟩)]⟩ 0 "k").2.db =
          some st' ∧
        ∃ row', storeLookup st' "k" = some row' ∧
          row'.hit_count = (⟨"1", 100, 0, 0, 3⟩ : Row).hit_count + 1) ∧
    (⟨"1", 100, 0, 0, 3⟩ : Row).hit_count ≤ (⟨"1", 100, 0, 0, 4⟩ : Row).hit_count := by
  refine ⟨c7_hit_count_accounting.1 ⟨3600, some []⟩ [] 0 "k" (Json.num 1) (some 60) rfl,
    c7_hit_count_accounting.2.1 ⟨3600, some [("k", ⟨"1", 100, 0, 0, 3⟩)]⟩
      [("k", ⟨"1", 100, 0, 0, 3⟩)] 0 "k" ⟨"1", 100, 0, 0, 3⟩ (Json.num 1)
      rfl rfl (by decide) rfl,
    c7_hit_count_accounting.2.2 ⟨3600, some [("k", ⟨"1", 100, 0, 0, 3⟩)]⟩
      [("k", ⟨"1", 100, 0, 0, 3⟩)] [("k", ⟨"1", 100, 0, 0, 4⟩)] 0
      (EngineOp.opGet "k") "k" ⟨"1", 100, 0, 0, 3⟩ ⟨"1", 100, 0, 0, 4⟩
      rfl (by simp) rfl rfl rfl (fun v t hc => EngineOp.noConfusion hc)⟩

/-- Witness for C9 at a concrete store with one active and one expired
row. -/
theorem c9_stats_partition_hit_rate_witness :
    ∃ cs, SQLiteCache.stats
        ⟨3600, some [("a", ⟨"xy", 50, 0, 0, 2⟩), ("b", ⟨"z", 5, 0, 0, 4⟩)]⟩ 10 =
        (Except.ok cs, ⟨3600, some [("a", ⟨"xy", 50, 0, 0, 2⟩), ("b", ⟨"z", 5, 0, 0, 4⟩)]⟩) ∧
      cs.total = cs.active + cs.expired ∧
      (0 < cs.total →
        ∃ hnd, cs.hit_rate = fmtHundredths hnd ∧
          2 * (hnd * cs.total) ≤ 2 * (100 * cs.total_hits) + cs.total ∧
          2 * (100 * cs.total_hits) < 2 * ((hnd + 1) * cs.total)) ∧
      (cs.total = 0 → cs.hit_rate = "0.00") :=
  c9_stats_partition_hit_rate
    ⟨3600, some [("a", ⟨"xy", 50, 0, 0, 2⟩), ("b", ⟨"z", 5, 0, 0, 4⟩)]⟩
    [("a", ⟨"xy", 50, 0, 0, 2⟩), ("b", ⟨"z", 5, 0, 0, 4⟩)] 10 rfl
